import Mathlib

set_option maxRecDepth 4096

/-
Verification of the checkpoint / conversation-history store of kyma-companion.

The store itself (agents/memory/redis_checkpointer.py) is exercised by the
unit tests in tests/unit/agents/memory/test_redis_checkpointer.py; the
definitions below embed the store operations as described by the design
specification, constrained by the behaviour those tests pin down
(key layout "checkpoint:<thread>:<id>", hash fields "checkpoint",
"metadata", "parent_ts", list key "history:<conversation>", and the
head-resolution result of test_aget). Payload encoding follows Python
json.dumps with default separators and ensure_ascii escaping; binary
payloads follow bytes.hex / bytes.fromhex.

Floating point payloads are outside the embedding: JSON numbers are
modelled as arbitrary-precision integers, which is the fragment the
repository actually stores (step counters, scores, integer timestamps in
the model). Python strings that contain lone UTF-16 surrogates are not
representable as Lean strings and are likewise outside the embedding.
-/

/-- A JSON value as handled by Python json.dumps / json.loads, restricted to
the float-free fragment: null, booleans, arbitrary-precision integers,
strings, arrays and objects (insertion-ordered key/value lists, as Python
dicts are). -/
inductive JVal where
  | jnull
  | jbool (b : Bool)
  | jint (n : Int)
  | jstr (s : String)
  | jarr (xs : List JVal)
  | jobj (kvs : List (String × JVal))

/-- Lowercase hexadecimal digit character for a value below 16, as produced
by the percent-04x formatting Python json uses in backslash-u escapes and
by bytes.hex. -/
def hexDigitChar (n : Nat) : Char :=
  if n < 10 then Char.ofNat (48 + n) else Char.ofNat (87 + n)

/-- Value of one hexadecimal digit character; both cases accepted, as by
Python int(c, 16) inside json.loads and bytes.fromhex. -/
def hexVal (c : Char) : Option Nat :=
  if 48 ≤ c.toNat ∧ c.toNat ≤ 57 then some (c.toNat - 48)
  else if 97 ≤ c.toNat ∧ c.toNat ≤ 102 then some (c.toNat - 87)
  else if 65 ≤ c.toNat ∧ c.toNat ≤ 70 then some (c.toNat - 55)
  else none

/-- The four hex digit characters of a value below 65536, most significant
first: the digits Python json writes after a backslash-u. -/
def hex4Chars (n : Nat) : List Char :=
  [hexDigitChar (n / 4096 % 16), hexDigitChar (n / 256 % 16),
   hexDigitChar (n / 16 % 16), hexDigitChar (n % 16)]

/-- One character as Python json.dumps with ensure_ascii renders it inside a
string literal: two-character escapes for quote, backslash and the common
control characters, backslash-u escapes for all other characters outside
the printable ASCII range 0x20 to 0x7E (a surrogate pair for characters
beyond 0xFFFF), and the character itself otherwise. -/
def escCh (c : Char) : List Char :=
  if c = '"' then ['\\', '"']
  else if c = '\\' then ['\\', '\\']
  else if c = '\n' then ['\\', 'n']
  else if c = '\r' then ['\\', 'r']
  else if c = '\t' then ['\\', 't']
  else if c.toNat = 8 then ['\\', 'b']
  else if c.toNat = 12 then ['\\', 'f']
  else if c.toNat < 32 ∨ 127 ≤ c.toNat then
    if c.toNat < 65536 then '\\' :: 'u' :: hex4Chars c.toNat
    else '\\' :: 'u' :: hex4Chars (55296 + (c.toNat - 65536) / 1024)
         ++ '\\' :: 'u' :: hex4Chars (56320 + (c.toNat - 65536) % 1024)
  else [c]

/-- A rendered JSON string literal: quote, escaped characters, quote. -/
def renderStr (s : String) : List Char :=
  '"' :: ((s.data.map escCh).flatten ++ ['"'])

/-- Decimal digit characters of a natural number, most significant first;
the fuel argument makes the recursion structural, natDec supplies enough. -/
def natChars (fuel n : Nat) : List Char :=
  match fuel with
  | 0 => []
  | f + 1 =>
    if n < 10 then [Char.ofNat (48 + n)]
    else natChars f (n / 10) ++ [Char.ofNat (48 + n % 10)]

/-- Decimal digit characters of a natural number, as Python str renders it. -/
def natDec (n : Nat) : List Char := natChars (n + 1) n

/-- Characters of an integer: optional minus sign, then decimal digits, as
Python str and hence json.dumps render an int. -/
def intDec (i : Int) : List Char :=
  (if i < 0 then ['-'] else []) ++ natDec i.natAbs

mutual

/-- Characters of a JSON value as Python json.dumps writes it with the
default separators: elements joined by comma-space, keys and values joined
by colon-space. -/
def renderV : JVal → List Char
  | .jnull => ['n', 'u', 'l', 'l']
  | .jbool true => ['t', 'r', 'u', 'e']
  | .jbool false => ['f', 'a', 'l', 's', 'e']
  | .jint n => intDec n
  | .jstr s => renderStr s
  | .jarr xs => '[' :: (renderItems xs ++ [']'])
  | .jobj kvs => '\x7b' :: (renderMembers kvs ++ ['\x7d'])

/-- Array elements joined by comma-space. -/
def renderItems : List JVal → List Char
  | [] => []
  | [x] => renderV x
  | x :: y :: rest => renderV x ++ ',' :: ' ' :: renderItems (y :: rest)

/-- Object members joined by comma-space, each key and value joined by
colon-space. -/
def renderMembers : List (String × JVal) → List Char
  | [] => []
  | [kv] => renderStr kv.1 ++ ':' :: ' ' :: renderV kv.2
  | kv :: kv2 :: rest =>
    renderStr kv.1 ++ ':' :: ' ' :: renderV kv.2 ++ ',' :: ' ' :: renderMembers (kv2 :: rest)

end

/-- The encoded text of a structured value: Python json.dumps. -/
def jsonDumps (v : JVal) : String := String.mk (renderV v)

/-- JSON whitespace, as json.loads skips it. -/
def isWsCh (c : Char) : Bool := c = ' ' || c = '\n' || c = '\t' || c = '\r'

/-- Drop leading JSON whitespace. -/
def skipWs : List Char → List Char
  | [] => []
  | c :: rest => if isWsCh c then skipWs rest else c :: rest

/-- The two-character escapes json.loads accepts after a backslash. -/
def unescCh (e : Char) : Option Char :=
  if e = '"' then some '"'
  else if e = '\\' then some '\\'
  else if e = '/' then some '/'
  else if e = 'n' then some '\n'
  else if e = 'r' then some '\r'
  else if e = 't' then some '\t'
  else if e = 'b' then some (Char.ofNat 8)
  else if e = 'f' then some (Char.ofNat 12)
  else none

/-- Value of four hex digit characters read as one number, as json.loads
reads the digits after a backslash-u. -/
def u4 (a b c d : Char) : Option Nat :=
  match hexVal a, hexVal b, hexVal c, hexVal d with
  | some va, some vb, some vc, some vd => some ((((va * 16 + vb) * 16 + vc) * 16 + vd))
  | _, _, _, _ => none

mutual

/-- Body of a JSON string literal after the opening quote, in strict mode as
json.loads uses it: raw control characters are rejected, escapes are
handled by parseStrEsc. Returns the decoded characters and the remainder
after the closing quote. -/
def parseStrAux (acc : List Char) (cs : List Char) : Option (List Char × List Char) :=
  match cs with
  | [] => none
  | c :: rest =>
    if c = '"' then some (acc.reverse, rest)
    else if c = '\\' then parseStrEsc acc rest
    else if c.toNat < 32 then none
    else parseStrAux (c :: acc) rest
termination_by structural cs

/-- One escape sequence after a backslash: a backslash-u escape handed to
parseStrU, or a two-character escape. -/
def parseStrEsc (acc : List Char) (cs : List Char) : Option (List Char × List Char) :=
  match cs with
  | [] => none
  | e :: rest =>
    if e = 'u' then parseStrU acc rest
    else
      match unescCh e with
      | some ch => parseStrAux (ch :: acc) rest
      | none => none
termination_by structural cs

/-- Four hex digits after a backslash-u: a scalar value becomes one
character, a high surrogate awaits its low half, a lone low surrogate is
rejected (it is no Lean character; unreachable from the renderer). -/
def parseStrU (acc : List Char) (cs : List Char) : Option (List Char × List Char) :=
  match cs with
  | a :: b :: c :: d :: rest =>
    (u4 a b c d).bind (fun n =>
      if n < 55296 ∨ 57343 < n then parseStrAux (Char.ofNat n :: acc) rest
      else if n < 56320 then parseStrLow n acc rest
      else none)
  | _ => none
termination_by structural cs

/-- After a high surrogate escape only another backslash-u may follow. -/
def parseStrLow (n : Nat) (acc : List Char) (cs : List Char) :
    Option (List Char × List Char) :=
  match cs with
  | s1 :: s2 :: rest =>
    if s1 = '\\' ∧ s2 = 'u' then parseStrU2 n acc rest else none
  | _ => none
termination_by structural cs

/-- The four hex digits of the low half of a surrogate pair, combined with
the pending high half n into one character beyond 0xFFFF. -/
def parseStrU2 (n : Nat) (acc : List Char) (cs : List Char) :
    Option (List Char × List Char) :=
  match cs with
  | a :: b :: c :: d :: rest =>
    (u4 a b c d).bind (fun m =>
      if 56320 ≤ m ∧ m < 57344 then
        parseStrAux (Char.ofNat (65536 + (n - 55296) * 1024 + (m - 56320)) :: acc) rest
      else none)
  | _ => none
termination_by structural cs

end

/-- An ASCII decimal digit. -/
def isDigitCh (c : Char) : Bool := 48 ≤ c.toNat && c.toNat ≤ 57

/-- Leading run of decimal digit characters, and the remainder. -/
def takeDigits : List Char → List Char × List Char
  | [] => ([], [])
  | c :: rest =>
    if isDigitCh c then
      let p := takeDigits rest
      (c :: p.1, p.2)
    else ([], c :: rest)

/-- Numeric value of a run of decimal digit characters. -/
def digitsNat (ds : List Char) : Nat :=
  ds.foldl (fun acc c => acc * 10 + (c.toNat - 48)) 0

/-- An unsigned JSON integer: a digit run without a redundant leading zero,
not followed by a fraction or exponent marker (a float would fall outside
the embedded integer fragment and is rejected; unreachable from the
renderer). -/
def parseNatNum (cs : List Char) : Option (Nat × List Char) :=
  let p := takeDigits cs
  match p.1 with
  | [] => none
  | [d] =>
    match p.2 with
    | c :: _ => if c = '.' ∨ c = 'e' ∨ c = 'E' then none else some (d.toNat - 48, p.2)
    | [] => some (d.toNat - 48, p.2)
  | d :: _ :: _ =>
    if d = '0' then none
    else match p.2 with
      | c :: _ => if c = '.' ∨ c = 'e' ∨ c = 'E' then none else some (digitsNat p.1, p.2)
      | [] => some (digitsNat p.1, p.2)

/-- A JSON integer: optional minus sign, then an unsigned integer. -/
def parseNum (cs : List Char) : Option (Int × List Char) :=
  match cs with
  | [] => none
  | c :: rest =>
    if c = '-' then (parseNatNum rest).map (fun p => (-(p.1 : Int), p.2))
    else (parseNatNum (c :: rest)).map (fun p => ((p.1 : Int), p.2))

/-- Python dict item assignment: replace in place if the key is present,
append otherwise. -/
def dictPut (kvs : List (String × JVal)) (k : String) (v : JVal) : List (String × JVal) :=
  if kvs.any (fun kv => kv.1 = k) then kvs.map (fun kv => if kv.1 = k then (k, v) else kv)
  else kvs ++ [(k, v)]

/-- Build a Python dict from parsed members in document order. -/
def buildDict (ms : List (String × JVal)) : List (String × JVal) :=
  ms.foldl (fun acc kv => dictPut acc kv.1 kv.2) []

mutual

/-- One JSON value, by recursive descent as json.loads: leading whitespace
skipped, then dispatch on the first character. The fuel argument makes the
recursion structural; any fuel beyond the input length is enough. -/
def parseVal : Nat → List Char → Option (JVal × List Char)
  | 0, _ => none
  | f + 1, cs =>
    match skipWs cs with
    | 'n' :: 'u' :: 'l' :: 'l' :: r => some (.jnull, r)
    | 't' :: 'r' :: 'u' :: 'e' :: r => some (.jbool true, r)
    | 'f' :: 'a' :: 'l' :: 's' :: 'e' :: r => some (.jbool false, r)
    | '"' :: r => (parseStrAux [] r).map (fun p => (.jstr (String.mk p.1), p.2))
    | '[' :: r =>
      match skipWs r with
      | [] => none
      | c :: r2 =>
        if c = ']' then some (.jarr [], r2)
        else (parseItems f (c :: r2)).map (fun p => (.jarr p.1, p.2))
    | '\x7b' :: r =>
      match skipWs r with
      | [] => none
      | c :: r2 =>
        if c = '\x7d' then some (.jobj [], r2)
        else (parseMembers f (c :: r2)).map (fun p => (.jobj (buildDict p.1), p.2))
    | c :: r =>
      if c = '-' ∨ isDigitCh c = true then (parseNum (c :: r)).map (fun p => (.jint p.1, p.2))
      else none
    | [] => none

/-- One or more comma-separated array elements up to the closing bracket. -/
def parseItems : Nat → List Char → Option (List JVal × List Char)
  | 0, _ => none
  | f + 1, cs =>
    match parseVal f cs with
    | none => none
    | some (v, r) =>
      match skipWs r with
      | ',' :: r2 =>
        match parseItems f (skipWs r2) with
        | some (vs, r3) => some (v :: vs, r3)
        | none => none
      | ']' :: r2 => some ([v], r2)
      | _ => none

/-- One or more comma-separated object members up to the closing brace. -/
def parseMembers : Nat → List Char → Option (List (String × JVal) × List Char)
  | 0, _ => none
  | f + 1, cs =>
    match skipWs cs with
    | '"' :: r =>
      match parseStrAux [] r with
      | none => none
      | some (ks, r1) =>
        match skipWs r1 with
        | ':' :: r2 =>
          match parseVal f (skipWs r2) with
          | none => none
          | some (v, r3) =>
            match skipWs r3 with
            | ',' :: r4 =>
              match parseMembers f (skipWs r4) with
              | some (ms, r5) => some ((String.mk ks, v) :: ms, r5)
              | none => none
            | '\x7d' :: r4 => some ([(String.mk ks, v)], r4)
            | _ => none
        | _ => none
    | _ => none

end

/-- The decoder for structured values: Python json.loads, requiring the
whole input to be one JSON document with only trailing whitespace. -/
def jsonLoads (s : String) : Option JVal :=
  match parseVal (s.data.length + 1) s.data with
  | some (v, r) => if skipWs r = [] then some v else none
  | none => none

/-- Keys are pairwise distinct (what a Python dict guarantees). -/
def keysNodup : List String → Bool
  | [] => true
  | k :: rest => !(rest.contains k) && keysNodup rest

mutual

/-- A structured value in the image of Python data: every object has
pairwise-distinct keys, as any value produced from Python dicts does. -/
def jwf : JVal → Bool
  | .jnull => true
  | .jbool _ => true
  | .jint _ => true
  | .jstr _ => true
  | .jarr xs => jwfItems xs
  | .jobj kvs => keysNodup (kvs.map (fun kv => kv.1)) && jwfMembers kvs

/-- Every element of an array is well formed. -/
def jwfItems : List JVal → Bool
  | [] => true
  | x :: rest => jwf x && jwfItems rest

/-- Every member value of an object is well formed. -/
def jwfMembers : List (String × JVal) → Bool
  | [] => true
  | kv :: rest => jwf kv.2 && jwfMembers rest

end

/-- Hex character pair of one byte, as bytes.hex writes it. -/
def byteHexChars (b : Fin 256) : List Char :=
  [hexDigitChar (b.val / 16), hexDigitChar (b.val % 16)]

/-- Hexadecimal text of a byte sequence: Python bytes.hex. -/
def bytesToHex (bs : List (Fin 256)) : String :=
  String.mk ((bs.map byteHexChars).flatten)

/-- Decode hexadecimal text back into bytes: Python bytes.fromhex on text
without separator spaces; digit pairs, odd length rejected. -/
def hexOfChars : List Char → Option (List (Fin 256))
  | [] => some []
  | [_] => none
  | a :: b :: rest =>
    match hexVal a, hexVal b with
    | some va, some vb =>
      match hexOfChars rest with
      | some bs =>
        if h : va * 16 + vb < 256 then some (⟨va * 16 + vb, h⟩ :: bs) else none
      | none => none
    | _, _ => none

/-- A value the serializer accepts: either a raw byte sequence or a
structured JSON-representable value. -/
inductive SerdeValue where
  | binary (bs : List (Fin 256))
  | structured (v : JVal)

/-- Modelled from the spec: JsonAndBinarySerializer.dumps of
agents/memory/redis_checkpointer.py (absent from src; its unit tests fix
the behaviour). A byte sequence becomes its hexadecimal text; anything
else is encoded as JSON text. -/
def serde_dumps : SerdeValue → String
  | .binary bs => bytesToHex bs
  | .structured v => jsonDumps v

/-- Modelled from the spec: JsonAndBinarySerializer.loads of
agents/memory/redis_checkpointer.py (absent from src). With is_binary the
text is hex-decoded back into bytes, otherwise parsed as JSON; malformed
input yields none where the original raises. -/
def serde_loads (s : String) (is_binary : Bool) : Option SerdeValue :=
  if is_binary then (hexOfChars s.data).map SerdeValue.binary
  else (jsonLoads s).map SerdeValue.structured


/-- Error taxonomy of the store, following section 7 of the specification.
The wrongType case is a model artifact for a Redis WRONGTYPE reply (a hash
command on a list key or vice versa), unreachable in the verified flows. -/
inductive StoreErr where
  | invalidArgument
  | connectionFailed
  | corruptRecord
  | corruptChain
  | wrongType
deriving DecidableEq

/-- A stored Redis value: a hash of field/value pairs or a list of items. -/
inductive RVal where
  | hash (fields : List (String × String))
  | rlist (items : List String)
deriving DecidableEq

/-- The remote key-value store: an association list from keys to values, in
insertion order (first binding of a key is the live one; rset keeps at most
one binding per key). -/
structure RedisState where
  data : List (String × RVal)
deriving DecidableEq

/-- The empty store. -/
def rempty : RedisState := ⟨[]⟩

/-- Read the value at a key. -/
def rget (s : RedisState) (k : String) : Option RVal :=
  (s.data.find? (fun p => p.1 = k)).map (fun p => p.2)

/-- Write the value at a key: overwrite in place when present, append
otherwise; all other keys keep their values. -/
def rset (s : RedisState) (k : String) (v : RVal) : RedisState :=
  if s.data.any (fun p => p.1 = k) then ⟨s.data.map (fun p => if p.1 = k then (k, v) else p)⟩
  else ⟨s.data ++ [(k, v)]⟩

/-- The key of the checkpoint record of thread_id and checkpoint_id:
checkpoint colon thread colon checkpoint, as test_aput reads it back. -/
def checkpointKey (thread_id checkpoint_id : String) : String :=
  "checkpoint:" ++ thread_id ++ ":" ++ checkpoint_id

/-- The key of the conversation history list of a conversation id. -/
def historyKey (conversation_id : String) : String := "history:" ++ conversation_id

/-- Field lookup in a hash record, first binding wins. -/
def lookupField : List (String × String) → String → Option String
  | [], _ => none
  | f :: rest, k => if f.1 = k then some f.2 else lookupField rest k

/-- The hash fields of one checkpoint record: the encoded checkpoint, the
encoded metadata, and the parent checkpoint id under field parent_ts, as
test_aput reads them back. -/
def specFields (checkpoint metadata : JVal) (parent_ts : String) : List (String × String) :=
  [("checkpoint", jsonDumps checkpoint), ("metadata", jsonDumps metadata),
   ("parent_ts", parent_ts)]

/-- Modelled from the spec: RedisSaver.aput of
agents/memory/redis_checkpointer.py (absent from src). Requires a
non-empty thread id; writes one hash record at the checkpoint key holding
the JSON-encoded checkpoint and metadata and the parent checkpoint id
under field parent_ts (the field name test_aput asserts), with the empty
string as sentinel when no parent is supplied. -/
def aput (s : RedisState) (thread_id checkpoint_id : String) (parent_id : Option String)
    (checkpoint metadata : JVal) : Except StoreErr RedisState :=
  if thread_id = "" then .error .invalidArgument
  else .ok (rset s (checkpointKey thread_id checkpoint_id)
    (.hash (specFields checkpoint metadata (parent_id.getD ""))))

/-- The character prefix every checkpoint key of a thread carries. -/
def ckPre (thread_id : String) : List Char := ("checkpoint:" ++ thread_id ++ ":").data

/-- Does the first list start the second one. -/
def listStartsWith : List Char → List Char → Bool
  | [], _ => true
  | _ :: _, [] => false
  | a :: as, b :: bs => a = b && listStartsWith as bs

/-- All records of a thread: every key carrying the thread prefix, paired
with the checkpoint id recovered as the key suffix (the scan the spec
describes for head resolution). -/
def threadEntries (s : RedisState) (thread_id : String) : List (String × RVal) :=
  s.data.filterMap (fun p =>
    if listStartsWith (ckPre thread_id) p.1.data then
      some (String.mk (p.1.data.drop (ckPre thread_id).length), p.2)
    else none)

/-- The parent checkpoint id a record references, if any: the parent_ts
field when present and not the empty-string root sentinel. -/
def entryParent : RVal → Option String
  | .hash fields =>
    match lookupField fields "parent_ts" with
    | some p => if p = "" then none else some p
    | none => none
  | .rlist _ => none

/-- Every checkpoint id referenced as a parent inside a thread. -/
def parentRefs (s : RedisState) (thread_id : String) : List String :=
  (threadEntries s thread_id).filterMap (fun e => entryParent e.2)

/-- List membership of a string, as a boolean. -/
def strMem (x : String) : List String → Bool
  | [] => false
  | y :: rest => x = y || strMem x rest

/-- The candidate heads of a thread: checkpoint ids present in the thread
that no record of the thread references as its parent. -/
def headCandidates (s : RedisState) (thread_id : String) : List String :=
  ((threadEntries s thread_id).map (fun e => e.1)).filter
    (fun c => !(strMem c (parentRefs s thread_id)))

/-- Lexicographic code-point order on character lists, as Python compares
strings. -/
def strLtChars : List Char → List Char → Bool
  | [], [] => false
  | [], _ :: _ => true
  | _ :: _, [] => false
  | a :: as, b :: bs =>
    if a.toNat < b.toNat then true
    else if b.toNat < a.toNat then false
    else strLtChars as bs

/-- Lexicographic code-point order on strings. -/
def strLt (a b : String) : Bool := strLtChars a.data b.data

/-- The larger of two strings in lexicographic order. -/
def maxStr2 (a b : String) : String := if strLt a b then b else a

/-- Fold of maxStr2 over the tail, carrying the greatest string so far. -/
def maxStrAux (a : String) : List String → String
  | [] => a
  | y :: rest => maxStrAux (maxStr2 a y) rest

/-- The lexicographic maximum of a list of strings, as Python max computes
it over the scanned keys. -/
def maxStrList : List String → String
  | [] => ""
  | x :: rest => maxStrAux x rest

/-- Modelled from the spec: head resolution of RedisSaver.aget_tuple
(absent from src), the scan the spec describes in section 4.3. An empty
thread has no head; a unique unreferenced checkpoint id is the head; with
several candidates the test test_aget (three records whose parent fields
all name chk-2, expecting chk-3) forces returning the greatest candidate
id rather than the CorruptChainError the spec text proposes; zero
candidates over a non-empty thread (a cycle) keep the corrupt-chain fault
of the spec. -/
def resolveHead (s : RedisState) (thread_id : String) : Except StoreErr (Option String) :=
  match headCandidates s thread_id with
  | [] => if (threadEntries s thread_id).isEmpty then .ok none else .error .corruptChain
  | [c] => .ok (some c)
  | c :: c2 :: rest => .ok (some (maxStrList (c :: c2 :: rest)))

/-- The record a get returns: the decoded checkpoint and metadata, with a
reference to the parent checkpoint when the record names one. -/
structure CheckpointTuple where
  thread_id : String
  checkpoint_id : String
  checkpoint : JVal
  metadata : JVal
  parent_config : Option (String × String)

/-- Decode one stored checkpoint record into the returned tuple; a payload
that fails to decode surfaces the corrupt-record fault of the spec. -/
def recordTuple (thread_id checkpoint_id : String) (fields : List (String × String)) :
    Except StoreErr CheckpointTuple :=
  match lookupField fields "checkpoint", lookupField fields "metadata" with
  | some cs, some ms =>
    match jsonLoads cs, jsonLoads ms with
    | some cj, some mj =>
      .ok ⟨thread_id, checkpoint_id, cj, mj,
        match lookupField fields "parent_ts" with
        | some p => if p = "" then none else some (thread_id, p)
        | none => none⟩
    | _, _ => .error .corruptRecord
  | _, _ => .error .corruptRecord

/-- Modelled from the spec: RedisSaver.aget_tuple of
agents/memory/redis_checkpointer.py (absent from src). With an explicit
checkpoint id the exact record is fetched, absent when missing; without
one the thread head is resolved by the scan of resolveHead and that record
is returned. -/
def aget_tuple (s : RedisState) (thread_id : String) (thread_ts : Option String) :
    Except StoreErr (Option CheckpointTuple) :=
  match thread_ts with
  | some cid =>
    match rget s (checkpointKey thread_id cid) with
    | none => .ok none
    | some (.hash fields) => (recordTuple thread_id cid fields).map some
    | some (.rlist _) => .error .wrongType
  | none =>
    match resolveHead s thread_id with
    | .error e => .error e
    | .ok none => .ok none
    | .ok (some cid) =>
      match rget s (checkpointKey thread_id cid) with
      | none => .ok none
      | some (.hash fields) => (recordTuple thread_id cid fields).map some
      | some (.rlist _) => .error .wrongType

/-- The kind of a conversation turn. Modelled from the spec: QueryType of
agents/memory/conversation_history.py (absent from src; the test uses
INITIAL_QUESTIONS and USER_QUERY). -/
inductive QueryType where
  | initial_questions
  | user_query
deriving DecidableEq

/-- Wire name of a query type. -/
def QueryType.asString : QueryType → String
  | .initial_questions => "initial_questions"
  | .user_query => "user_query"

/-- Recover a query type from its wire name. -/
def queryTypeOfString (s : String) : Option QueryType :=
  if s = "initial_questions" then some .initial_questions
  else if s = "user_query" then some .user_query
  else none

/-- One conversation turn. Modelled from the spec: ConversationMessage of
agents/memory/conversation_history.py (absent from src); the timestamp,
a Python float of seconds, is embedded as an integer tick count since
float payloads are outside the embedding. -/
structure ConversationMessage where
  type : QueryType
  query : String
  response : String
  timestamp : Int
deriving DecidableEq

/-- Structured form of a message, fields in declaration order as pydantic
model_dump_json writes them. -/
def messageToJson (m : ConversationMessage) : JVal :=
  .jobj [("type", .jstr m.type.asString), ("query", .jstr m.query),
         ("response", .jstr m.response), ("timestamp", .jint m.timestamp)]

/-- Member lookup in a structured object, first binding wins. -/
def jlook : List (String × JVal) → String → Option JVal
  | [], _ => none
  | kv :: rest, k => if kv.1 = k then some kv.2 else jlook rest k

/-- Validate a structured value back into a message, as
ConversationMessage.model_validate does. -/
def messageOfJson : JVal → Option ConversationMessage
  | .jobj kvs =>
    match jlook kvs "type", jlook kvs "query", jlook kvs "response", jlook kvs "timestamp" with
    | some (.jstr t), some (.jstr q), some (.jstr r), some (.jint n) =>
      (queryTypeOfString t).map (fun qt => ⟨qt, q, r, n⟩)
    | _, _, _, _ => none
  | _ => none

/-- Modelled from the spec: RedisSaver.add_conversation_message (absent
from src). An empty conversation id is rejected as an invalid argument
before anything is written; otherwise the encoded message is appended at
the end of the history list of the id. -/
def add_conversation_message (s : RedisState) (conversation_id : String)
    (m : ConversationMessage) : Except StoreErr RedisState :=
  if conversation_id = "" then .error .invalidArgument
  else
    match rget s (historyKey conversation_id) with
    | none => .ok (rset s (historyKey conversation_id) (.rlist [jsonDumps (messageToJson m)]))
    | some (.rlist items) =>
      .ok (rset s (historyKey conversation_id) (.rlist (items ++ [jsonDumps (messageToJson m)])))
    | some (.hash _) => .error .wrongType

/-- Decode every stored history item; one undecodable item surfaces the
corrupt-record fault. -/
def decodeMessages : List String → Except StoreErr (List ConversationMessage)
  | [] => .ok []
  | x :: rest =>
    match (jsonLoads x).bind messageOfJson with
    | some m => (decodeMessages rest).map (fun ms => m :: ms)
    | none => .error .corruptRecord

/-- Modelled from the spec: RedisSaver.get_all_conversation_messages
(absent from src). Returns the decoded messages of the id in insertion
order, and the empty sequence when the id has no entries. -/
def get_all_conversation_messages (s : RedisState) (conversation_id : String) :
    Except StoreErr (List ConversationMessage) :=
  match rget s (historyKey conversation_id) with
  | none => .ok []
  | some (.rlist items) => decodeMessages items
  | some (.hash _) => .error .wrongType

/-- An open client connection to the store. -/
structure RedisConn where
  connId : Nat
  live : Bool
deriving DecidableEq

/-- What a caller may hand to the connection manager: an open connection, a
pool (with the state of its transport), null, or some unrecognized value. -/
inductive ConnArg where
  | conn (c : RedisConn)
  | pool (poolId : Nat) (transportOk : Bool)
  | nullArg
  | otherArg (s : String)

/-- A scoped acquisition: the live connection plus whether it was borrowed
from a pool (and so is returned there on release). -/
structure ScopedConn where
  conn : RedisConn
  borrowedFromPool : Bool
deriving DecidableEq

/-- Modelled from the spec: get_async_connection of
agents/memory/redis_checkpointer.py (absent from src; its test fixes the
dispatch). An open connection is returned as is; a pool lends a live
client built over it, a transport failure while doing so surfacing as a
connection error; anything else (null included) is an invalid argument. -/
def get_async_connection : ConnArg → Except StoreErr ScopedConn
  | .conn c => .ok ⟨c, false⟩
  | .pool pid tok => if tok then .ok ⟨⟨pid, true⟩, true⟩ else .error .connectionFailed
  | .nullArg => .error .invalidArgument
  | .otherArg _ => .error .invalidArgument

/-- The fields of a message, as src/src/initial_questions/inital_questions.py
reads them; each is optional and defaults to the empty string. -/
structure K8sMessage where
  resource_namespace : Option String
  resource_kind : Option String
  resource_name : Option String
  resource_api_version : Option String

/-- The Kubernetes client interface, abstracted to the yaml-dumped text each
query contributes to the context (services/k8s.py is outside the studied
sources; only the composition of its results matters here). -/
structure K8sClient where
  list_not_running_pods : String → String
  list_nodes_metrics : String
  list_k8s_warning_events : String → String
  describe_resource : String → String → String → String → String
  list_k8s_events_for_resource : String → String → String → String

/-- Modelled from the spec: is_empty_str of utils/utils.py (absent from
src), read as emptiness of the string. -/
def is_empty_str (s : String) : Bool := s = ""

/-- Modelled from the spec: is_non_empty_str of utils/utils.py (absent from
src), read as non-emptiness of the string. -/
def is_non_empty_str (s : String) : Bool := !(s = "")

/-- Python str.lower, character-wise over the ASCII range (Char.toLower
lowers exactly the letters A to Z, as the compared literals are ASCII). -/
def strLower (s : String) : String := String.mk (s.data.map Char.toLower)

/-- InitialQuestionsHandler.fetch_relevant_data_from_k8s_cluster of
src/src/initial_questions/inital_questions.py: three branches over the
message shape, raising on any other shape. describe_resource takes
api_version, kind, name and namespace in that order, as the call passes
them. -/
def fetch_relevant_data_from_k8s_cluster (message : K8sMessage) (k8s_client : K8sClient) :
    Except String String :=
  let ns := message.resource_namespace.getD ""
  let kind := message.resource_kind.getD ""
  let name := message.resource_name.getD ""
  let api_version := message.resource_api_version.getD ""
  if is_empty_str ns && strLower kind == "cluster" then
    .ok (k8s_client.list_not_running_pods ns ++ "\n" ++ k8s_client.list_nodes_metrics
         ++ "\n" ++ k8s_client.list_k8s_warning_events ns)
  else if is_non_empty_str ns && strLower kind == "namespace" then
    .ok (k8s_client.list_k8s_warning_events ns)
  else if is_non_empty_str kind && is_non_empty_str api_version then
    .ok (k8s_client.describe_resource api_version kind name ns ++ "\n"
         ++ k8s_client.list_k8s_events_for_resource kind name ns)
  else .error "Invalid message provided."

/-- filter_messages of src/src/agents/supervisor/agent.py: the Python slice
of the last ten messages. -/
def filter_messages {α : Type} (messages : List α) : List α :=
  messages.drop (messages.length - 10)

/-- Sequential puts of a parent-linked chain: each checkpoint is written
with the previously written checkpoint id as its parent, the first with
the parent the caller supplies (none for a root). Items carry the
checkpoint id, the checkpoint and the metadata. -/
def chainPut (s : RedisState) (t : String) (prev : Option String) :
    List (String × JVal × JVal) → Except StoreErr RedisState
  | [] => .ok s
  | item :: rest =>
    match aput s t item.1 prev item.2.1 item.2.2 with
    | .ok s2 => chainPut s2 t (some item.1) rest
    | .error e => .error e

/-- The raw records such a chain of puts appends to an empty store. -/
def chainRecords (t : String) (prev : Option String) :
    List (String × JVal × JVal) → List (String × RVal)
  | [] => []
  | item :: rest =>
    (checkpointKey t item.1, .hash (specFields item.2.1 item.2.2 (prev.getD "")))
      :: chainRecords t (some item.1) rest

/-- The same records as the thread scan sees them: checkpoint id paired
with the stored hash. -/
def chainEntries (t : String) (prev : Option String) :
    List (String × JVal × JVal) → List (String × RVal)
  | [] => []
  | item :: rest =>
    (item.1, .hash (specFields item.2.1 item.2.2 (prev.getD "")))
      :: chainEntries t (some item.1) rest

/-- The parent id the next put after a chain of puts would carry: the last
checkpoint id of the chain, or the initial parent when the chain is empty. -/
def chainPrev (prev : Option String) : List (String × JVal × JVal) → Option String
  | [] => prev
  | i :: rest => chainPrev (some i.1) rest

/-- The parent references an initial parent value contributes to a thread
scan: none for the root sentinel (absent or empty), the id itself
otherwise. -/
def prevPart : Option String → List String
  | none => []
  | some p => if p = "" then [] else [p]

/-- A remainder that cannot extend a rendered integer: empty, or headed by
a character that is neither a digit nor a fraction or exponent marker.
Every context a rendered value sits in qualifies. -/
def numDelim : List Char → Bool
  | [] => true
  | c :: _ => !(isDigitCh c || c = '.' || c = 'e' || c = 'E')

theorem digit_char_spec : ∀ k, k < 10 →
    (Char.ofNat (48 + k)).toNat = 48 + k ∧ isDigitCh (Char.ofNat (48 + k)) = true := by
  decide

theorem natDec_unfold (n : Nat) :
    natDec n = if n < 10 then [Char.ofNat (48 + n)]
               else natDec (n / 10) ++ [Char.ofNat (48 + n % 10)] := by
  have key : ∀ n fuel, n < fuel → natChars fuel n = natDec n := by
    intro n
    induction n using Nat.strong_induction_on with
    | _ n ih =>
      intro fuel hf
      match fuel, hf with
      | f + 1, hf =>
        by_cases h10 : n < 10
        · simp [natChars, natDec, h10]
        · have hd : n / 10 < n := Nat.div_lt_self (by omega) (by omega)
          have h1 : natChars f (n / 10) = natDec (n / 10) := ih (n / 10) hd f (by omega)
          have h2 : natChars n (n / 10) = natDec (n / 10) := ih (n / 10) hd n (by omega)
          simp only [natChars, h10, if_neg h10, h1]
          conv_rhs => rw [natDec, natChars]
          simp [h10, h2]
  by_cases h10 : n < 10
  · simp [natDec, natChars, h10]
  · have hd : n / 10 < n := Nat.div_lt_self (by omega) (by omega)
    conv_lhs => rw [natDec, natChars]
    simp only [if_neg h10]
    rw [key (n / 10) n (by omega)]

theorem natDec_ne_nil (n : Nat) : natDec n ≠ [] := by
  rw [natDec_unfold]
  by_cases h : n < 10 <;> simp [h]

theorem natDec_digits (n : Nat) : ∀ c ∈ natDec n, isDigitCh c = true := by
  induction n using Nat.strong_induction_on with
  | _ n ih =>
    rw [natDec_unfold]
    by_cases h : n < 10
    · simpa [h] using (digit_char_spec n h).2
    · simp only [if_neg h, List.mem_append, List.mem_singleton]
      intro c hc
      rcases hc with hc | hc
      · exact ih (n / 10) (Nat.div_lt_self (by omega) (by omega)) c hc
      · subst hc
        exact (digit_char_spec (n % 10) (Nat.mod_lt _ (by omega))).2

theorem natDec_head (n : Nat) :
    ∃ c t, natDec n = c :: t ∧ isDigitCh c = true ∧ (0 < n → c ≠ '0') := by
  induction n using Nat.strong_induction_on with
  | _ n ih =>
    rw [natDec_unfold]
    by_cases h : n < 10
    · refine ⟨Char.ofNat (48 + n), [], by simp [h], (digit_char_spec n h).2, ?_⟩
      intro hn hz
      have := congrArg Char.toNat hz
      rw [(digit_char_spec n h).1] at this
      have : (48 + n) = 48 := by simpa using this
      omega
    · obtain ⟨c, t, hct, hcd, hcz⟩ := ih (n / 10) (Nat.div_lt_self (by omega) (by omega))
      refine ⟨c, t ++ [Char.ofNat (48 + n % 10)], ?_, hcd, ?_⟩
      · simp [if_neg h, hct]
      · intro _
        exact hcz (by omega)

theorem digitsNat_natDec (n : Nat) : digitsNat (natDec n) = n := by
  induction n using Nat.strong_induction_on with
  | _ n ih =>
    rw [natDec_unfold]
    by_cases h : n < 10
    · simp only [if_pos h, digitsNat, List.foldl_cons, List.foldl_nil]
      rw [(digit_char_spec n h).1]
      omega
    · simp only [if_neg h, digitsNat, List.foldl_append, List.foldl_cons, List.foldl_nil]
      have := ih (n / 10) (Nat.div_lt_self (by omega) (by omega))
      rw [digitsNat] at this
      rw [this, (digit_char_spec (n % 10) (Nat.mod_lt _ (by omega))).1]
      omega

theorem takeDigits_stop {s0 : List Char} (hdelim : numDelim s0 = true) :
    takeDigits s0 = ([], s0) := by
  cases s0 with
  | nil => rfl
  | cons a tl =>
    simp only [numDelim, Bool.or_eq_false_iff, Bool.not_eq_true'] at hdelim
    simp [takeDigits, hdelim.1.1.1]

theorem takeDigits_run (dl tail0 : List Char) (hdl : ∀ c ∈ dl, isDigitCh c = true)
    (htl : takeDigits tail0 = ([], tail0)) :
    takeDigits (dl ++ tail0) = (dl, tail0) := by
  induction dl with
  | nil => simpa using htl
  | cons d tl ih2 =>
    have hd : isDigitCh d = true := hdl d (by simp)
    have hrec := ih2 (fun x hx => hdl x (by simp [hx]))
    simp [takeDigits, hd, hrec]

theorem numDelim_head {c : Char} {t : List Char} (h : numDelim (c :: t) = true) :
    isDigitCh c = false ∧ c ≠ '.' ∧ c ≠ 'e' ∧ c ≠ 'E' := by
  simp only [numDelim, Bool.not_eq_true', Bool.or_eq_false_iff,
    decide_eq_false_iff_not] at h
  exact ⟨h.1.1.1, h.1.1.2, h.1.2, h.2⟩

theorem parseNatNum_natDec (n : Nat) (rest : List Char) (hr : numDelim rest = true) :
    parseNatNum (natDec n ++ rest) = some (n, rest) := by
  have htd : takeDigits (natDec n ++ rest) = (natDec n, rest) :=
    takeDigits_run _ _ (natDec_digits n) (takeDigits_stop hr)
  by_cases h : n < 10
  · have hds : natDec n = [Char.ofNat (48 + n)] := by rw [natDec_unfold]; simp [h]
    have hv : (Char.ofNat (48 + n)).toNat - 48 = n := by
      rw [(digit_char_spec n h).1]; omega
    simp only [parseNatNum]
    rw [htd]
    simp only [hds]
    cases rest with
    | nil => simp [hv]
    | cons c2 t2 =>
      obtain ⟨_, hdot, he, hE⟩ := numDelim_head hr
      simp [hv, hdot, he, hE]
  · obtain ⟨c, t, hct, _, hcz⟩ := natDec_head n
    have hcz' : c ≠ '0' := hcz (by omega)
    have hlen : 2 ≤ (natDec n).length := by
      rw [natDec_unfold, if_neg h, List.length_append]
      cases hnd : natDec (n / 10) with
      | nil => exact absurd hnd (natDec_ne_nil (n / 10))
      | cons a b => simp
    cases t with
    | nil => rw [hct] at hlen; simp at hlen
    | cons t0 t1 =>
      have hdn : digitsNat (c :: t0 :: t1) = n := by rw [← hct, digitsNat_natDec]
      simp only [parseNatNum]
      rw [htd]
      simp only [hct]
      cases rest with
      | nil => simp [hcz', hdn]
      | cons c2 t2 =>
        obtain ⟨_, hdot, he, hE⟩ := numDelim_head hr
        simp [hcz', hdn, hdot, he, hE]

theorem isDigitCh_toNat {c : Char} (h : isDigitCh c = true) :
    48 ≤ c.toNat ∧ c.toNat ≤ 57 := by
  simpa [isDigitCh] using h

theorem digit_ne {c : Char} (h : isDigitCh c = true) :
    c ≠ '-' ∧ isWsCh c = false ∧ c ≠ ']' ∧ c ≠ '\x7d' ∧ c ≠ ',' ∧ c ≠ ':'
    ∧ c ≠ 'n' ∧ c ≠ 't' ∧ c ≠ 'f' ∧ c ≠ '"' ∧ c ≠ '[' ∧ c ≠ '\x7b' := by
  refine ⟨?_, ?_, ?_, ?_, ?_, ?_, ?_, ?_, ?_, ?_, ?_, ?_⟩
  case _ => intro hc; exact absurd (hc ▸ h) (by decide)
  case _ =>
    simp only [isWsCh, Bool.or_eq_false_iff, decide_eq_false_iff_not]
    refine ⟨⟨⟨?_, ?_⟩, ?_⟩, ?_⟩ <;> (intro hc; exact absurd (hc ▸ h) (by decide))
  all_goals intro hc; exact absurd (hc ▸ h) (by decide)

theorem parseNum_intDec (i : Int) (rest : List Char) (hr : numDelim rest = true) :
    parseNum (intDec i ++ rest) = some (i, rest) := by
  by_cases hi : i < 0
  · have harg : intDec i ++ rest = '-' :: (natDec i.natAbs ++ rest) := by
      simp [intDec, hi]
    rw [harg]
    simp only [parseNum, if_pos rfl, parseNatNum_natDec _ _ hr, Option.map_some']
    have hval : -((i.natAbs : Nat) : Int) = i := by omega
    simp [hval]
    rw [abs_of_neg hi]
    omega
  · obtain ⟨c, t, hct, hcd, _⟩ := natDec_head i.natAbs
    have hne : c ≠ '-' := (digit_ne hcd).1
    have harg : intDec i ++ rest = c :: (t ++ rest) := by
      simp [intDec, hi, hct]
    rw [harg]
    simp only [parseNum, if_neg hne]
    rw [← List.cons_append, ← hct, parseNatNum_natDec _ _ hr]
    have hval : ((i.natAbs : Nat) : Int) = i := by omega
    simp [hval]

theorem hexVal_hexDigitChar : ∀ d, d < 16 → hexVal (hexDigitChar d) = some d := by
  decide

theorem char_toNat_lt (c : Char) : c.toNat < 1114112 := by
  have he : c.toNat = c.val.toNat := rfl
  rcases c.valid with h | h <;> omega

theorem char_valid_range (c : Char) : c.toNat < 55296 ∨ 57343 < c.toNat := by
  have he : c.toNat = c.val.toNat := rfl
  rcases c.valid with h | h
  · left; omega
  · right; omega

theorem u4_hex (n : Nat) (hn : n < 65536) :
    u4 (hexDigitChar (n / 4096 % 16)) (hexDigitChar (n / 256 % 16))
       (hexDigitChar (n / 16 % 16)) (hexDigitChar (n % 16)) = some n := by
  have e1 := hexVal_hexDigitChar (n / 4096 % 16) (by omega)
  have e2 := hexVal_hexDigitChar (n / 256 % 16) (by omega)
  have e3 := hexVal_hexDigitChar (n / 16 % 16) (by omega)
  have e4 := hexVal_hexDigitChar (n % 16) (by omega)
  have hcomb : ((n / 4096 % 16 * 16 + n / 256 % 16) * 16 + n / 16 % 16) * 16 + n % 16 = n := by
    omega
  simp only [u4, e1, e2, e3, e4, hcomb]

theorem psa_cons (acc : List Char) (c : Char) (rest : List Char) :
    parseStrAux acc (c :: rest) =
      (if c = '"' then some (acc.reverse, rest)
       else if c = '\\' then parseStrEsc acc rest
       else if c.toNat < 32 then none
       else parseStrAux (c :: acc) rest) := rfl

theorem psu_cons (acc : List Char) (a b c d : Char) (rest : List Char) :
    parseStrU acc (a :: b :: c :: d :: rest) =
      (u4 a b c d).bind (fun n =>
        if n < 55296 ∨ 57343 < n then parseStrAux (Char.ofNat n :: acc) rest
        else if n < 56320 then parseStrLow n acc rest
        else none) := rfl

theorem psu2_cons (n : Nat) (acc : List Char) (a b c d : Char) (rest : List Char) :
    parseStrU2 n acc (a :: b :: c :: d :: rest) =
      (u4 a b c d).bind (fun m =>
        if 56320 ≤ m ∧ m < 57344 then
          parseStrAux (Char.ofNat (65536 + (n - 55296) * 1024 + (m - 56320)) :: acc) rest
        else none) := rfl

theorem parseStrAux_u_scalar (acc rest : List Char) (n : Nat) (hn : n < 65536)
    (hv : n < 55296 ∨ 57343 < n) :
    parseStrAux acc ('\\' :: 'u' :: (hex4Chars n ++ rest))
      = parseStrAux (Char.ofNat n :: acc) rest := by
  have hstep : parseStrAux acc ('\\' :: 'u' :: (hex4Chars n ++ rest))
      = parseStrU acc (hex4Chars n ++ rest) := rfl
  rw [hstep]
  simp only [hex4Chars, List.cons_append, List.nil_append, psu_cons, u4_hex n hn,
    Option.some_bind]
  rw [if_pos hv]

theorem parseStrAux_surrogates (acc rest : List Char) (hi lo : Nat)
    (hhi : 55296 ≤ hi ∧ hi < 56320) (hlo : 56320 ≤ lo ∧ lo < 57344) :
    parseStrAux acc ('\\' :: 'u' :: (hex4Chars hi ++ ('\\' :: 'u' :: (hex4Chars lo ++ rest))))
      = parseStrAux (Char.ofNat (65536 + (hi - 55296) * 1024 + (lo - 56320)) :: acc) rest := by
  have hh := u4_hex hi (by omega)
  have hl := u4_hex lo (by omega)
  have hstep : parseStrAux acc
        ('\\' :: 'u' :: (hex4Chars hi ++ ('\\' :: 'u' :: (hex4Chars lo ++ rest))))
      = parseStrU acc (hex4Chars hi ++ ('\\' :: 'u' :: (hex4Chars lo ++ rest))) := rfl
  have hstep2 : ∀ L : List Char, parseStrLow hi acc ('\\' :: 'u' :: L)
      = parseStrU2 hi acc L := fun L => by
    rw [parseStrLow]
    rw [if_pos ⟨rfl, rfl⟩]
  rw [hstep]
  simp only [hex4Chars, List.cons_append, List.nil_append, psu_cons, hh, Option.some_bind]
  rw [if_neg (by omega), if_pos (by omega), hstep2]
  simp only [psu2_cons, hl, Option.some_bind]
  rw [if_pos (by omega)]

theorem parseStrAux_u_pair (acc rest : List Char) (n : Nat) (hlo : 65536 ≤ n)
    (hhi : n < 1114112) :
    parseStrAux acc ('\\' :: 'u' :: (hex4Chars (55296 + (n - 65536) / 1024)
        ++ ('\\' :: 'u' :: (hex4Chars (56320 + (n - 65536) % 1024) ++ rest))))
      = parseStrAux (Char.ofNat n :: acc) rest := by
  have key := parseStrAux_surrogates acc rest (55296 + (n - 65536) / 1024)
    (56320 + (n - 65536) % 1024)
    ⟨by omega, by omega⟩ ⟨by omega, by omega⟩
  have harith : 65536 + (55296 + (n - 65536) / 1024 - 55296) * 1024
      + (56320 + (n - 65536) % 1024 - 56320) = n := by omega
  rw [harith] at key
  exact key

theorem parseStrAux_escCh (c : Char) (acc rest : List Char) :
    parseStrAux acc (escCh c ++ rest) = parseStrAux (c :: acc) rest := by
  by_cases h1 : c = '"'
  · subst h1; rfl
  by_cases h2 : c = '\\'
  · subst h2; rfl
  by_cases h3 : c = '\n'
  · subst h3; rfl
  by_cases h4 : c = '\r'
  · subst h4; rfl
  by_cases h5 : c = '\t'
  · subst h5; rfl
  by_cases h6 : c.toNat = 8
  · have hc : c = Char.ofNat 8 := by rw [← Char.ofNat_toNat c, h6]
    subst hc; rfl
  by_cases h7 : c.toNat = 12
  · have hc : c = Char.ofNat 12 := by rw [← Char.ofNat_toNat c, h7]
    subst hc; rfl
  by_cases hB : c.toNat < 32 ∨ 127 ≤ c.toNat
  · by_cases hS : c.toNat < 65536
    · have harg : escCh c ++ rest = '\\' :: 'u' :: (hex4Chars c.toNat ++ rest) := by
        simp [escCh, h1, h2, h3, h4, h5, h6, h7, hB, hS]
      rw [harg, parseStrAux_u_scalar acc rest c.toNat hS (char_valid_range c),
        Char.ofNat_toNat]
    · have harg : escCh c ++ rest
          = '\\' :: 'u' :: (hex4Chars (55296 + (c.toNat - 65536) / 1024)
            ++ ('\\' :: 'u' :: (hex4Chars (56320 + (c.toNat - 65536) % 1024) ++ rest))) := by
        simp [escCh, h1, h2, h3, h4, h5, h6, h7, hB, hS]
      rw [harg, parseStrAux_u_pair acc rest c.toNat (by omega) (char_toNat_lt c),
        Char.ofNat_toNat]
  · have harg : escCh c ++ rest = c :: rest := by
      simp [escCh, h1, h2, h3, h4, h5, h6, h7, hB]
    rw [harg, psa_cons, if_neg h1, if_neg h2, if_neg (by omega : ¬c.toNat < 32)]

theorem parseStrAux_flat (cs : List Char) : ∀ (acc rest : List Char),
    parseStrAux acc ((cs.map escCh).flatten ++ '"' :: rest)
      = some (acc.reverse ++ cs, rest) := by
  induction cs with
  | nil => intro acc rest; simp [parseStrAux]
  | cons c t ih =>
    intro acc rest
    rw [List.map_cons, List.flatten_cons, List.append_assoc, parseStrAux_escCh, ih]
    simp

theorem parseStr_render (s : String) (rest : List Char) :
    parseStrAux [] ((s.data.map escCh).flatten ++ '"' :: rest) = some (s.data, rest) := by
  rw [parseStrAux_flat]
  simp

theorem skipWs_cons (c : Char) (r : List Char) :
    skipWs (c :: r) = if isWsCh c then skipWs r else c :: r := rfl

theorem renderV_head (v : JVal) :
    ∃ c t, renderV v = c :: t ∧ isWsCh c = false ∧ c ≠ ']' := by
  cases v with
  | jnull => exact ⟨'n', _, rfl, by decide, by decide⟩
  | jbool b =>
    cases b with
    | true => exact ⟨'t', _, rfl, by decide, by decide⟩
    | false => exact ⟨'f', _, rfl, by decide, by decide⟩
  | jstr s => exact ⟨'"', _, rfl, by decide, by decide⟩
  | jarr xs => exact ⟨'[', _, rfl, by decide, by decide⟩
  | jobj kvs => exact ⟨'\x7b', _, rfl, by decide, by decide⟩
  | jint n =>
    have hr : renderV (.jint n) = intDec n := rfl
    by_cases hn : n < 0
    · refine ⟨'-', natDec n.natAbs, ?_, by decide, by decide⟩
      rw [hr]
      unfold intDec
      rw [if_pos hn]
      rfl
    · obtain ⟨c, t, hct, hcd, _⟩ := natDec_head n.natAbs
      obtain ⟨_, hws, hbr, _, _, _, _, _, _, _, _, _⟩ := digit_ne hcd
      refine ⟨c, t, ?_, hws, hbr⟩
      rw [hr]
      unfold intDec
      rw [if_neg hn]
      simp [hct]

theorem skipWs_renderV (v : JVal) (x : List Char) :
    skipWs (renderV v ++ x) = renderV v ++ x := by
  obtain ⟨c, t, hct, hws, _⟩ := renderV_head v
  rw [hct, List.cons_append, skipWs_cons, if_neg (by simp [hws])]

theorem numDelim_comma (t : List Char) : numDelim (',' :: t) = true := rfl

theorem numDelim_rbracket (t : List Char) : numDelim (']' :: t) = true := rfl

theorem numDelim_rbrace (t : List Char) : numDelim ('\x7d' :: t) = true := rfl

theorem contains_iff_strMem (x : String) (l : List String) :
    strMem x l = true ↔ x ∈ l := by
  induction l with
  | nil => simp [strMem]
  | cons y rest ih => simp [strMem, ih, List.mem_cons]

theorem keysNodup_iff (l : List String) : keysNodup l = true ↔ l.Nodup := by
  induction l with
  | nil => simp [keysNodup]
  | cons k rest ih =>
    rw [List.nodup_cons, ← ih]
    simp only [keysNodup, Bool.and_eq_true, Bool.not_eq_true']
    constructor
    · rintro ⟨h1, h2⟩
      refine ⟨?_, h2⟩
      intro hmem
      rw [List.contains_eq_any_beq] at h1
      simp only [List.any_eq_false] at h1
      have := h1 k hmem
      simp at this
    · rintro ⟨h1, h2⟩
      refine ⟨?_, h2⟩
      rw [List.contains_eq_any_beq]
      simp only [List.any_eq_false]
      intro a ha htrue
      exact h1 (by rw [eq_of_beq htrue]; exact ha)

theorem dictPut_fresh (acc : List (String × JVal)) (k : String) (v : JVal)
    (h : ∀ kv ∈ acc, kv.1 ≠ k) : dictPut acc k v = acc ++ [(k, v)] := by
  rw [dictPut, if_neg]
  simp only [List.any_eq_true, not_exists, not_and, decide_eq_true_eq]
  intro kv hkv
  exact h kv hkv

theorem buildDictAux (kvs : List (String × JVal)) : ∀ acc : List (String × JVal),
    ((acc ++ kvs).map (fun kv => kv.1)).Nodup →
    kvs.foldl (fun a kv => dictPut a kv.1 kv.2) acc = acc ++ kvs := by
  induction kvs with
  | nil => intro acc _; simp
  | cons kv rest ih =>
    intro acc hnd
    have hfresh : ∀ p ∈ acc, p.1 ≠ kv.1 := by
      intro p hp heq
      rw [List.map_append, List.nodup_append] at hnd
      exact hnd.2.2 (List.mem_map_of_mem _ hp) (by simp [← heq])
    rw [List.foldl_cons, dictPut_fresh acc kv.1 kv.2 hfresh]
    have hre : (acc ++ [(kv.1, kv.2)]) ++ rest = acc ++ (kv :: rest) := by simp
    have := ih (acc ++ [(kv.1, kv.2)]) (by rw [hre]; exact hnd)
    rw [this, hre]

theorem buildDict_nodup (kvs : List (String × JVal))
    (h : keysNodup (kvs.map (fun kv => kv.1)) = true) : buildDict kvs = kvs := by
  have := buildDictAux kvs [] (by simpa using (keysNodup_iff _).mp h)
  simpa [buildDict] using this

theorem parseVal_succ (f : Nat) (cs : List Char) :
    parseVal (f + 1) cs = (match skipWs cs with
      | 'n' :: 'u' :: 'l' :: 'l' :: r => some (.jnull, r)
      | 't' :: 'r' :: 'u' :: 'e' :: r => some (.jbool true, r)
      | 'f' :: 'a' :: 'l' :: 's' :: 'e' :: r => some (.jbool false, r)
      | '"' :: r => (parseStrAux [] r).map (fun p => (.jstr (String.mk p.1), p.2))
      | '[' :: r =>
        match skipWs r with
        | [] => none
        | c :: r2 =>
          if c = ']' then some (.jarr [], r2)
          else (parseItems f (c :: r2)).map (fun p => (.jarr p.1, p.2))
      | '\x7b' :: r =>
        match skipWs r with
        | [] => none
        | c :: r2 =>
          if c = '\x7d' then some (.jobj [], r2)
          else (parseMembers f (c :: r2)).map (fun p => (.jobj (buildDict p.1), p.2))
      | c :: r =>
        if c = '-' ∨ isDigitCh c = true then (parseNum (c :: r)).map (fun p => (.jint p.1, p.2))
        else none
      | [] => none) := rfl

theorem parseItems_succ (f : Nat) (cs : List Char) :
    parseItems (f + 1) cs = (match parseVal f cs with
      | none => none
      | some (v, r) =>
        match skipWs r with
        | ',' :: r2 =>
          (match parseItems f (skipWs r2) with
           | some (vs, r3) => some (v :: vs, r3)
           | none => none)
        | ']' :: r2 => some ([v], r2)
        | _ => none) := rfl

theorem parseMembers_succ (f : Nat) (cs : List Char) :
    parseMembers (f + 1) cs = (match skipWs cs with
      | '"' :: r =>
        match parseStrAux [] r with
        | none => none
        | some (ks, r1) =>
          match skipWs r1 with
          | ':' :: r2 =>
            match parseVal f (skipWs r2) with
            | none => none
            | some (v, r3) =>
              match skipWs r3 with
              | ',' :: r4 =>
                (match parseMembers f (skipWs r4) with
                 | some (ms, r5) => some ((String.mk ks, v) :: ms, r5)
                 | none => none)
              | '\x7d' :: r4 => some ([(String.mk ks, v)], r4)
              | _ => none
          | _ => none
      | _ => none) := rfl

theorem parseVal_to_parseNum (f : Nat) (ch : Char) (t : List Char)
    (hwsp : isWsCh ch = false) (hch1 : ch ≠ 'n') (hch2 : ch ≠ 't')
    (hch3 : ch ≠ 'f') (hch4 : ch ≠ '"') (hch5 : ch ≠ '[') (hch6 : ch ≠ '\x7b')
    (hlead : ch = '-' ∨ isDigitCh ch = true) :
    parseVal (f + 1) (ch :: t) = (parseNum (ch :: t)).map (fun p => (.jint p.1, p.2)) := by
  rw [parseVal_succ, skipWs_cons, if_neg (by simp [hwsp])]
  simp [hch1, hch2, hch3, hch4, hch5, hch6, hlead]

theorem parseVal_num (i : Int) (f : Nat) (rest : List Char) (hr : numDelim rest = true) :
    parseVal (f + 1) (intDec i ++ rest) = some (.jint i, rest) := by
  by_cases hi : i < 0
  · have harg : intDec i ++ rest = '-' :: (natDec i.natAbs ++ rest) := by
      simp [intDec, hi]
    rw [harg, parseVal_to_parseNum f '-' _ (by decide) (by decide) (by decide) (by decide)
      (by decide) (by decide) (by decide) (Or.inl rfl), ← harg, parseNum_intDec i rest hr]
    rfl
  · obtain ⟨c, t, hct, hcd, _⟩ := natDec_head i.natAbs
    obtain ⟨hm, hws, _, _, _, _, hn, ht2, hf2, hq, hbk, hbc⟩ := digit_ne hcd
    have harg : intDec i ++ rest = c :: (t ++ rest) := by
      simp [intDec, hi, hct]
    rw [harg, parseVal_to_parseNum f c _ hws hn ht2 hf2 hq hbk hbc (Or.inr hcd),
      ← harg, parseNum_intDec i rest hr]
    rfl

theorem skipWs_renderItems (x : JVal) (xs : List JVal) (tail : List Char) :
    skipWs (renderItems (x :: xs) ++ tail) = renderItems (x :: xs) ++ tail := by
  cases xs with
  | nil =>
    have h : renderItems [x] = renderV x := rfl
    rw [h, skipWs_renderV]
  | cons y ys =>
    have h : renderItems (x :: y :: ys) = renderV x ++ ',' :: ' ' :: renderItems (y :: ys) := rfl
    rw [h, List.append_assoc, skipWs_renderV, ← List.append_assoc]

theorem parseVal_arr (x : JVal) (xs : List JVal) (f : Nat) (rest : List Char) :
    parseVal (f + 1) ('[' :: (renderItems (x :: xs) ++ ']' :: rest))
      = (parseItems f (renderItems (x :: xs) ++ ']' :: rest)).map
          (fun p => (.jarr p.1, p.2)) := by
  obtain ⟨c, t, hct, hws, hbr⟩ := renderV_head x
  have hsh : ∃ T, renderItems (x :: xs) ++ ']' :: rest = c :: T := by
    cases xs with
    | nil =>
      refine ⟨t ++ ']' :: rest, ?_⟩
      rw [show renderItems [x] = renderV x from rfl, hct]
      simp
    | cons y ys =>
      refine ⟨(t ++ ',' :: ' ' :: renderItems (y :: ys)) ++ ']' :: rest, ?_⟩
      rw [show renderItems (x :: y :: ys)
        = renderV x ++ ',' :: ' ' :: renderItems (y :: ys) from rfl, hct]
      simp
  obtain ⟨T, hT⟩ := hsh
  have h1 : skipWs (c :: T) = c :: T := by rw [skipWs_cons, if_neg (by simp [hws])]
  have stepA : parseVal (f + 1) ('[' :: (c :: T))
      = (match skipWs (c :: T) with
         | [] => none
         | c2 :: r2 =>
           if c2 = ']' then some (JVal.jarr [], r2)
           else (parseItems f (c2 :: r2)).map (fun p => (JVal.jarr p.1, p.2))) := rfl
  rw [hT, stepA, h1]
  show (if c = ']' then some (JVal.jarr [], T)
        else (parseItems f (c :: T)).map (fun p => (JVal.jarr p.1, p.2))) = _
  rw [if_neg hbr]

theorem parseVal_obj (k : String) (v : JVal) (ms : List (String × JVal)) (f : Nat)
    (rest : List Char) :
    parseVal (f + 1) ('\x7b' :: (renderMembers ((k, v) :: ms) ++ '\x7d' :: rest))
      = (parseMembers f (renderMembers ((k, v) :: ms) ++ '\x7d' :: rest)).map
          (fun p => (.jobj (buildDict p.1), p.2)) := by
  have hsh : ∃ T, renderMembers ((k, v) :: ms) ++ '\x7d' :: rest = '"' :: T := by
    cases ms with
    | nil =>
      refine ⟨(((k.data.map escCh).flatten ++ ['"']) ++ ':' :: ' ' :: renderV v)
        ++ '\x7d' :: rest, ?_⟩
      rw [show renderMembers [(k, v)] = renderStr k ++ ':' :: ' ' :: renderV v from rfl]
      simp [renderStr]
    | cons kv2 ms2 =>
      refine ⟨(((k.data.map escCh).flatten ++ ['"']) ++ ':' :: ' ' :: renderV v
        ++ ',' :: ' ' :: renderMembers (kv2 :: ms2)) ++ '\x7d' :: rest, ?_⟩
      rw [show renderMembers ((k, v) :: kv2 :: ms2) = renderStr k ++ ':' :: ' ' :: renderV v
        ++ ',' :: ' ' :: renderMembers (kv2 :: ms2) from rfl]
      simp [renderStr]
  obtain ⟨T, hT⟩ := hsh
  have stepA : parseVal (f + 1) ('\x7b' :: ('"' :: T))
      = (parseMembers f ('"' :: T)).map (fun p => (JVal.jobj (buildDict p.1), p.2)) := rfl
  rw [hT, stepA]

theorem jwfItems_cons (x : JVal) (xs : List JVal) :
    jwfItems (x :: xs) = (jwf x && jwfItems xs) := rfl

theorem jwfMembers_cons (kv : String × JVal) (ms : List (String × JVal)) :
    jwfMembers (kv :: ms) = (jwf kv.2 && jwfMembers ms) := rfl

mutual

theorem rt_val : ∀ (v : JVal) (fuel : Nat) (rest : List Char),
    jwf v = true → (renderV v).length < fuel → numDelim rest = true →
    parseVal fuel (renderV v ++ rest) = some (v, rest)
  | .jnull, fuel, rest, _, hf, _ => by
    cases fuel with
    | zero => exact absurd hf (Nat.not_lt_zero _)
    | succ f => rfl
  | .jbool true, fuel, rest, _, hf, _ => by
    cases fuel with
    | zero => exact absurd hf (Nat.not_lt_zero _)
    | succ f => rfl
  | .jbool false, fuel, rest, _, hf, _ => by
    cases fuel with
    | zero => exact absurd hf (Nat.not_lt_zero _)
    | succ f => rfl
  | .jint n, fuel, rest, _, hf, hr => by
    cases fuel with
    | zero => exact absurd hf (Nat.not_lt_zero _)
    | succ f => exact parseVal_num n f rest hr
  | .jstr s, fuel, rest, _, hf, _ => by
    cases fuel with
    | zero => exact absurd hf (Nat.not_lt_zero _)
    | succ f =>
      have harg : renderV (.jstr s) ++ rest
          = '"' :: ((s.data.map escCh).flatten ++ '"' :: rest) := by
        rw [show renderV (.jstr s) = renderStr s from rfl]
        simp [renderStr]
      rw [harg,
        show parseVal (f + 1) ('"' :: ((s.data.map escCh).flatten ++ '"' :: rest))
          = (parseStrAux [] ((s.data.map escCh).flatten ++ '"' :: rest)).map
              (fun p => (JVal.jstr (String.mk p.1), p.2)) from rfl,
        parseStr_render]
      rfl
  | .jarr [], fuel, rest, _, hf, _ => by
    cases fuel with
    | zero => exact absurd hf (Nat.not_lt_zero _)
    | succ f => rfl
  | .jarr (x :: xs), fuel, rest, hwf, hf, _ => by
    cases fuel with
    | zero => exact absurd hf (Nat.not_lt_zero _)
    | succ f =>
      have hwf2 : jwf x = true ∧ jwfItems xs = true := by
        have h0 : jwfItems (x :: xs) = true := hwf
        rw [jwfItems_cons, Bool.and_eq_true] at h0
        exact h0
      have hlen : (renderItems (x :: xs)).length + 1 < f := by
        rw [show renderV (.jarr (x :: xs))
          = '[' :: (renderItems (x :: xs) ++ [']']) from rfl] at hf
        simp at hf
        omega
      have key := rt_items x xs f rest hwf2.1 hwf2.2 hlen
      have harr : renderV (.jarr (x :: xs)) ++ rest
          = '[' :: (renderItems (x :: xs) ++ ']' :: rest) := by
        rw [show renderV (.jarr (x :: xs)) = '[' :: (renderItems (x :: xs) ++ [']']) from rfl]
        simp
      rw [harr, parseVal_arr, key]
      rfl
  | .jobj [], fuel, rest, _, hf, _ => by
    cases fuel with
    | zero => exact absurd hf (Nat.not_lt_zero _)
    | succ f => rfl
  | .jobj ((k, v) :: ms), fuel, rest, hwf, hf, _ => by
    cases fuel with
    | zero => exact absurd hf (Nat.not_lt_zero _)
    | succ f =>
      have h0 : (keysNodup (((k, v) :: ms).map (fun kv => kv.1))
          && jwfMembers ((k, v) :: ms)) = true := hwf
      rw [Bool.and_eq_true, jwfMembers_cons, Bool.and_eq_true] at h0
      have hlen : (renderMembers ((k, v) :: ms)).length + 1 < f := by
        rw [show renderV (.jobj ((k, v) :: ms))
          = '\x7b' :: (renderMembers ((k, v) :: ms) ++ ['\x7d']) from rfl] at hf
        simp at hf
        omega
      have key := rt_members (k, v) ms f rest h0.2.1 h0.2.2 hlen
      have hobj : renderV (.jobj ((k, v) :: ms)) ++ rest
          = '\x7b' :: (renderMembers ((k, v) :: ms) ++ '\x7d' :: rest) := by
        rw [show renderV (.jobj ((k, v) :: ms))
          = '\x7b' :: (renderMembers ((k, v) :: ms) ++ ['\x7d']) from rfl]
        simp
      rw [hobj, parseVal_obj, key, Option.map_some', buildDict_nodup _ h0.1]
  termination_by v _ _ _ _ _ => sizeOf v

theorem rt_items : ∀ (x : JVal) (xs : List JVal) (fuel : Nat) (rest : List Char),
    jwf x = true → jwfItems xs = true →
    (renderItems (x :: xs)).length + 1 < fuel →
    parseItems fuel (renderItems (x :: xs) ++ ']' :: rest) = some (x :: xs, rest)
  | x, [], fuel, rest, hwx, _, hf => by
    cases fuel with
    | zero => exact absurd hf (Nat.not_lt_zero _)
    | succ f =>
      have hone : renderItems [x] = renderV x := rfl
      have hfe : (renderV x).length < f := by
        rw [hone] at hf
        omega
      have hv := rt_val x f (']' :: rest) hwx hfe (numDelim_rbracket rest)
      rw [parseItems_succ, hone, hv]
      rfl
  | x, y :: ys, fuel, rest, hwx, hwt, hf => by
    cases fuel with
    | zero => exact absurd hf (Nat.not_lt_zero _)
    | succ f =>
      have hsplit : jwf y = true ∧ jwfItems ys = true := by
        have h0 : jwfItems (y :: ys) = true := hwt
        rw [jwfItems_cons, Bool.and_eq_true] at h0
        exact h0
      have hitems : renderItems (x :: y :: ys)
          = renderV x ++ ',' :: ' ' :: renderItems (y :: ys) := rfl
      have hfe : (renderV x).length < f := by
        rw [hitems] at hf
        simp at hf
        omega
      have hfx : (renderItems (y :: ys)).length + 1 < f := by
        rw [hitems] at hf
        simp at hf
        omega
      have hv := rt_val x f (',' :: ' ' :: (renderItems (y :: ys) ++ ']' :: rest)) hwx hfe
        (numDelim_comma _)
      have key := rt_items y ys f rest hsplit.1 hsplit.2 hfx
      have harg : renderItems (x :: y :: ys) ++ ']' :: rest
          = renderV x ++ (',' :: ' ' :: (renderItems (y :: ys) ++ ']' :: rest)) := by
        rw [hitems]
        simp
      rw [parseItems_succ, harg, hv]
      show (match parseItems f (skipWs (' ' :: (renderItems (y :: ys) ++ ']' :: rest))) with
            | some (vs, r3) => some (x :: vs, r3)
            | none => none) = some (x :: y :: ys, rest)
      have hsp : skipWs (' ' :: (renderItems (y :: ys) ++ ']' :: rest))
          = renderItems (y :: ys) ++ ']' :: rest := by
        rw [show skipWs (' ' :: (renderItems (y :: ys) ++ ']' :: rest))
          = skipWs (renderItems (y :: ys) ++ ']' :: rest) from rfl, skipWs_renderItems]
      rw [hsp, key]
  termination_by x xs _ _ _ _ _ => sizeOf x + sizeOf xs

theorem rt_members : ∀ (kv : String × JVal) (ms : List (String × JVal)) (fuel : Nat)
    (rest : List Char),
    jwf kv.2 = true → jwfMembers ms = true →
    (renderMembers (kv :: ms)).length + 1 < fuel →
    parseMembers fuel (renderMembers (kv :: ms) ++ '\x7d' :: rest) = some (kv :: ms, rest)
  | (k, v), [], fuel, rest, hwv, _, hf => by
    cases fuel with
    | zero => exact absurd hf (Nat.not_lt_zero _)
    | succ f =>
      have hone : renderMembers [(k, v)] = renderStr k ++ ':' :: ' ' :: renderV v := rfl
      have hfe : (renderV v).length < f := by
        rw [hone] at hf
        simp [renderStr] at hf
        omega
      have hv := rt_val v f ('\x7d' :: rest) hwv hfe (numDelim_rbrace rest)
      have harg : renderMembers [(k, v)] ++ '\x7d' :: rest
          = '"' :: ((k.data.map escCh).flatten
              ++ '"' :: (':' :: ' ' :: (renderV v ++ '\x7d' :: rest))) := by
        rw [hone]
        simp [renderStr]
      have stepK : parseMembers (f + 1) ('"' :: ((k.data.map escCh).flatten
              ++ '"' :: (':' :: ' ' :: (renderV v ++ '\x7d' :: rest))))
          = (match parseStrAux [] ((k.data.map escCh).flatten
              ++ '"' :: (':' :: ' ' :: (renderV v ++ '\x7d' :: rest))) with
             | none => none
             | some (ks, r1) =>
               match skipWs r1 with
               | ':' :: r2 =>
                 match parseVal f (skipWs r2) with
                 | none => none
                 | some (v2, r3) =>
                   match skipWs r3 with
                   | ',' :: r4 =>
                     (match parseMembers f (skipWs r4) with
                      | some (msx, r5) => some ((String.mk ks, v2) :: msx, r5)
                      | none => none)
                   | '\x7d' :: r4 => some ([(String.mk ks, v2)], r4)
                   | _ => none
               | _ => none) := rfl
      rw [harg, stepK, parseStr_render]
      show (match parseVal f (skipWs (' ' :: (renderV v ++ '\x7d' :: rest))) with
            | none => none
            | some (v2, r3) =>
              match skipWs r3 with
              | ',' :: r4 =>
                (match parseMembers f (skipWs r4) with
                 | some (msx, r5) => some ((String.mk k.data, v2) :: msx, r5)
                 | none => none)
              | '\x7d' :: r4 => some ([(String.mk k.data, v2)], r4)
              | _ => none) = some ([(k, v)], rest)
      have hsp : skipWs (' ' :: (renderV v ++ '\x7d' :: rest))
          = renderV v ++ '\x7d' :: rest := by
        rw [show skipWs (' ' :: (renderV v ++ '\x7d' :: rest))
          = skipWs (renderV v ++ '\x7d' :: rest) from rfl, skipWs_renderV]
      rw [hsp, hv]
      rfl
  | (k, v), kv2 :: ms2, fuel, rest, hwv, hwt, hf => by
    cases fuel with
    | zero => exact absurd hf (Nat.not_lt_zero _)
    | succ f =>
      have hsplit : jwf kv2.2 = true ∧ jwfMembers ms2 = true := by
        have h0 : jwfMembers (kv2 :: ms2) = true := hwt
        rw [jwfMembers_cons, Bool.and_eq_true] at h0
        exact h0
      have hmore : renderMembers ((k, v) :: kv2 :: ms2)
          = renderStr k ++ ':' :: ' ' :: renderV v
            ++ ',' :: ' ' :: renderMembers (kv2 :: ms2) := rfl
      have hfe : (renderV v).length < f := by
        rw [hmore] at hf
        simp [renderStr] at hf
        omega
      have hfx : (renderMembers (kv2 :: ms2)).length + 1 < f := by
        rw [hmore] at hf
        simp [renderStr] at hf
        omega
      have hv := rt_val v f
        (',' :: ' ' :: (renderMembers (kv2 :: ms2) ++ '\x7d' :: rest)) hwv hfe
        (numDelim_comma _)
      have key := rt_members kv2 ms2 f rest hsplit.1 hsplit.2 hfx
      have harg : renderMembers ((k, v) :: kv2 :: ms2) ++ '\x7d' :: rest
          = '"' :: ((k.data.map escCh).flatten
              ++ '"' :: (':' :: ' ' :: (renderV v
                ++ ',' :: ' ' :: (renderMembers (kv2 :: ms2) ++ '\x7d' :: rest)))) := by
        rw [hmore]
        simp [renderStr]
      have stepK : parseMembers (f + 1) ('"' :: ((k.data.map escCh).flatten
              ++ '"' :: (':' :: ' ' :: (renderV v
                ++ ',' :: ' ' :: (renderMembers (kv2 :: ms2) ++ '\x7d' :: rest)))))
          = (match parseStrAux [] ((k.data.map escCh).flatten
              ++ '"' :: (':' :: ' ' :: (renderV v
                ++ ',' :: ' ' :: (renderMembers (kv2 :: ms2) ++ '\x7d' :: rest)))) with
             | none => none
             | some (ks, r1) =>
               match skipWs r1 with
               | ':' :: r2 =>
                 match parseVal f (skipWs r2) with
                 | none => none
                 | some (v2, r3) =>
                   match skipWs r3 with
                   | ',' :: r4 =>
                     (match parseMembers f (skipWs r4) with
                      | some (msx, r5) => some ((String.mk ks, v2) :: msx, r5)
                      | none => none)
                   | '\x7d' :: r4 => some ([(String.mk ks, v2)], r4)
                   | _ => none
               | _ => none) := rfl
      rw [harg, stepK, parseStr_render]
      show (match parseVal f (skipWs (' ' :: (renderV v
              ++ ',' :: ' ' :: (renderMembers (kv2 :: ms2) ++ '\x7d' :: rest)))) with
            | none => none
            | some (v2, r3) =>
              match skipWs r3 with
              | ',' :: r4 =>
                (match parseMembers f (skipWs r4) with
                 | some (msx, r5) => some ((String.mk k.data, v2) :: msx, r5)
                 | none => none)
              | '\x7d' :: r4 => some ([(String.mk k.data, v2)], r4)
              | _ => none) = some ((k, v) :: kv2 :: ms2, rest)
      have hsp : skipWs (' ' :: (renderV v
            ++ ',' :: ' ' :: (renderMembers (kv2 :: ms2) ++ '\x7d' :: rest)))
          = renderV v ++ ',' :: ' ' :: (renderMembers (kv2 :: ms2) ++ '\x7d' :: rest) := by
        rw [show skipWs (' ' :: (renderV v
            ++ ',' :: ' ' :: (renderMembers (kv2 :: ms2) ++ '\x7d' :: rest)))
          = skipWs (renderV v
              ++ ',' :: ' ' :: (renderMembers (kv2 :: ms2) ++ '\x7d' :: rest)) from rfl,
          skipWs_renderV]
      rw [hsp, hv]
      show (match parseMembers f (skipWs (' '
              :: (renderMembers (kv2 :: ms2) ++ '\x7d' :: rest))) with
            | some (msx, r5) => some ((String.mk k.data, v) :: msx, r5)
            | none => none) = some ((k, v) :: kv2 :: ms2, rest)
      have hsp2 : skipWs (' ' :: (renderMembers (kv2 :: ms2) ++ '\x7d' :: rest))
          = renderMembers (kv2 :: ms2) ++ '\x7d' :: rest := by
        rw [show skipWs (' ' :: (renderMembers (kv2 :: ms2) ++ '\x7d' :: rest))
          = skipWs (renderMembers (kv2 :: ms2) ++ '\x7d' :: rest) from rfl]
        obtain ⟨k2, v2⟩ := kv2
        have hh : ∃ T, renderMembers ((k2, v2) :: ms2) ++ '\x7d' :: rest = '"' :: T := by
          cases ms2 with
          | nil =>
            refine ⟨(((k2.data.map escCh).flatten ++ ['"']) ++ ':' :: ' ' :: renderV v2)
              ++ '\x7d' :: rest, ?_⟩
            rw [show renderMembers [(k2, v2)]
              = renderStr k2 ++ ':' :: ' ' :: renderV v2 from rfl]
            simp [renderStr]
          | cons kv3 ms3 =>
            refine ⟨(((k2.data.map escCh).flatten ++ ['"']) ++ ':' :: ' ' :: renderV v2
              ++ ',' :: ' ' :: renderMembers (kv3 :: ms3)) ++ '\x7d' :: rest, ?_⟩
            rw [show renderMembers ((k2, v2) :: kv3 :: ms3)
              = renderStr k2 ++ ':' :: ' ' :: renderV v2
                ++ ',' :: ' ' :: renderMembers (kv3 :: ms3) from rfl]
            simp [renderStr]
        obtain ⟨T, hT⟩ := hh
        rw [hT, skipWs_cons, if_neg (by decide)]
      rw [hsp2, key]
  termination_by kv ms _ _ _ _ _ => sizeOf kv + sizeOf ms

end

theorem jsonLoads_jsonDumps (v : JVal) (hwf : jwf v = true) :
    jsonLoads (jsonDumps v) = some v := by
  have hkey := rt_val v ((renderV v).length + 1) [] hwf (by omega) rfl
  rw [List.append_nil] at hkey
  rw [jsonLoads]
  rw [show (jsonDumps v).data = renderV v from rfl, hkey]
  rfl

theorem hexOfChars_bytesToHex : ∀ bs : List (Fin 256),
    hexOfChars ((bs.map byteHexChars).flatten) = some bs := by
  intro bs
  induction bs with
  | nil => rfl
  | cons b rest ih =>
    have hlt : b.val < 256 := b.isLt
    have e1 := hexVal_hexDigitChar (b.val / 16) (by omega)
    have e2 := hexVal_hexDigitChar (b.val % 16) (by omega)
    simp only [List.map_cons, List.flatten_cons, byteHexChars, List.cons_append,
      List.nil_append]
    simp only [hexOfChars, e1, e2, ih]
    rw [dif_pos (by omega : b.val / 16 * 16 + b.val % 16 < 256)]
    have hb : (⟨b.val / 16 * 16 + b.val % 16, by omega⟩ : Fin 256) = b := by
      apply Fin.ext
      simp
      omega
    rw [hb]

/-- C3: for every byte sequence, decoding its hex encoding with the binary
flag returns the bytes; and for every JSON-representable structured value
(a value of the float-free JSON fragment whose objects have distinct keys,
as every value serialized from Python dicts does), decoding its JSON
encoding without the binary flag returns the value. -/
theorem c3_serializer_round_trip (bs : List (Fin 256)) (v : JVal) (hwf : jwf v = true) :
    serde_loads (serde_dumps (.binary bs)) true = some (.binary bs)
    ∧ serde_loads (serde_dumps (.structured v)) false = some (.structured v) := by
  constructor
  · have hdata : (bytesToHex bs).data = (bs.map byteHexChars).flatten := rfl
    simp only [serde_dumps, serde_loads, if_pos rfl, hdata, hexOfChars_bytesToHex]
    rfl
  · simp only [serde_dumps, serde_loads]
    rw [if_neg (by simp)]
    rw [jsonLoads_jsonDumps v hwf]
    rfl

/-- Witness for C3 at the concrete payloads of the repository test:
the bytes of hello and the object with key mapped to value. -/
theorem c3_serializer_round_trip_witness :
    jwf (JVal.jobj [("key", JVal.jstr "value")]) = true
    ∧ serde_loads (serde_dumps (.binary [104, 101, 108, 108, 111])) true
        = some (.binary [104, 101, 108, 108, 111])
    ∧ serde_loads (serde_dumps (.structured (JVal.jobj [("key", JVal.jstr "value")]))) false
        = some (.structured (JVal.jobj [("key", JVal.jstr "value")])) :=
  ⟨by decide,
   (c3_serializer_round_trip [104, 101, 108, 108, 111]
     (JVal.jobj [("key", JVal.jstr "value")]) (by decide)).1,
   (c3_serializer_round_trip [104, 101, 108, 108, 111]
     (JVal.jobj [("key", JVal.jstr "value")]) (by decide)).2⟩

theorem rget_rset_self (s : RedisState) (k : String) (v : RVal) :
    rget (rset s k v) k = some v := by
  rw [rset]
  by_cases h : s.data.any (fun p => p.1 = k) = true
  · rw [if_pos h]
    rw [rget]
    obtain ⟨d⟩ := s
    induction d with
    | nil => simp at h
    | cons p rest ih =>
      by_cases hp : p.1 = k
      · simp only [List.map_cons, if_pos hp]
        rw [List.find?_cons_of_pos _ (by simp)]
        rfl
      · rw [List.any_cons] at h
        simp only [hp, decide_eq_true_eq, Bool.false_or, decide_eq_false hp] at h
        simp only [List.map_cons, if_neg hp]
        rw [List.find?_cons_of_neg _ (by simpa using hp)]
        exact ih h
  · rw [if_neg h]
    rw [rget, List.find?_append]
    have hnone : s.data.find? (fun p => p.1 = k) = none := by
      rw [List.find?_eq_none]
      intro p hp
      simp only [Bool.not_eq_true, decide_eq_false_iff_not]
      intro hpk
      exact h (List.any_eq_true.mpr ⟨p, hp, by simpa using hpk⟩)
    rw [hnone]
    rw [Option.none_or]
    rw [List.find?_cons_of_pos _ (by simp)]
    rfl

theorem rget_rset_other (s : RedisState) (k k2 : String) (v : RVal) (hne : k2 ≠ k) :
    rget (rset s k v) k2 = rget s k2 := by
  have hkk2 : ¬((k : String) = k2) := fun hh => hne hh.symm
  rw [rset]
  by_cases h : s.data.any (fun p => p.1 = k) = true
  · rw [if_pos h]
    rw [rget, rget]
    obtain ⟨d⟩ := s
    clear h
    induction d with
    | nil => rfl
    | cons p rest ih =>
      by_cases hp : p.1 = k
      · simp only [List.map_cons, if_pos hp]
        rw [List.find?_cons_of_neg _ (by simpa using hkk2),
          List.find?_cons_of_neg _ (by simpa [hp] using hkk2)]
        exact ih
      · simp only [List.map_cons, if_neg hp]
        by_cases hp2 : p.1 = k2
        · rw [List.find?_cons_of_pos _ (by simpa using hp2),
            List.find?_cons_of_pos _ (by simpa using hp2)]
        · rw [List.find?_cons_of_neg _ (by simpa using hp2),
            List.find?_cons_of_neg _ (by simpa using hp2)]
          exact ih
  · rw [if_neg h]
    rw [rget, rget, List.find?_append]
    rw [List.find?_cons_of_neg _ (by simpa using hkk2)]
    simp

theorem rset_fresh (s : RedisState) (k : String) (v : RVal)
    (h : s.data.any (fun p => p.1 = k) = false) :
    rset s k v = ⟨s.data ++ [(k, v)]⟩ := by
  rw [rset, if_neg (by simp [h])]

theorem rget_none_of_not_any (s : RedisState) (k : String)
    (h : s.data.any (fun p => p.1 = k) = false) : rget s k = none := by
  rw [rget]
  have hnone : s.data.find? (fun p => p.1 = k) = none := by
    rw [List.find?_eq_none]
    intro p hp
    simp only [Bool.not_eq_true, decide_eq_false_iff_not]
    intro hpk
    rw [List.any_eq_false] at h
    exact absurd (by simpa using hpk) (by simpa using h p hp)
  rw [hnone]
  rfl

theorem recordTuple_specFields (t cid : String) (C M : JVal) (p : String)
    (hC : jwf C = true) (hM : jwf M = true) :
    recordTuple t cid (specFields C M p)
      = .ok ⟨t, cid, C, M, if p = "" then none else some (t, p)⟩ := by
  have l1 : lookupField (specFields C M p) "checkpoint" = some (jsonDumps C) := rfl
  have l2 : lookupField (specFields C M p) "metadata" = some (jsonDumps M) := rfl
  have l3 : lookupField (specFields C M p) "parent_ts" = some p := rfl
  simp only [recordTuple, l1, l2, l3, jsonLoads_jsonDumps C hC, jsonLoads_jsonDumps M hM]

/-- C4: after putting a checkpoint with no parent under a non-empty thread
id, getting that exact checkpoint id returns the stored checkpoint and
metadata with no parent reference; getting a checkpoint id that is not in
the store returns absent, not an error. -/
theorem c4_put_get_exact (s : RedisState) (t c : String) (C M : JVal)
    (ht : t ≠ "") (hC : jwf C = true) (hM : jwf M = true) :
    (∀ s2, aput s t c none C M = .ok s2 →
      aget_tuple s2 t (some c) = .ok (some ⟨t, c, C, M, none⟩))
    ∧ (∀ c2, rget s (checkpointKey t c2) = none → aget_tuple s t (some c2) = .ok none) := by
  constructor
  · intro s2 hput
    rw [aput, if_neg ht] at hput
    have hs2 : s2 = rset s (checkpointKey t c) (.hash (specFields C M "")) := by
      cases hput
      rfl
    subst hs2
    rw [aget_tuple]
    rw [rget_rset_self]
    show Except.map some (recordTuple t c (specFields C M "")) = _
    rw [recordTuple_specFields t c C M "" hC hM]
    rfl
  · intro c2 hnone
    rw [aget_tuple, hnone]

/-- Witness for C4: one concrete put of chk-1 on thread t1 and both get
behaviours at concrete inputs. -/
theorem c4_put_get_exact_witness :
    aget_tuple (rset rempty (checkpointKey "t1" "chk-1")
        (.hash (specFields (JVal.jobj [("id", JVal.jstr "chk-1")])
          (JVal.jobj [("step", JVal.jint 1)]) ""))) "t1" (some "chk-1")
      = .ok (some ⟨"t1", "chk-1", JVal.jobj [("id", JVal.jstr "chk-1")],
          JVal.jobj [("step", JVal.jint 1)], none⟩)
    ∧ aget_tuple rempty "t1" (some "chk-404") = .ok none :=
  ⟨(c4_put_get_exact rempty "t1" "chk-1" (JVal.jobj [("id", JVal.jstr "chk-1")])
      (JVal.jobj [("step", JVal.jint 1)]) (by decide) (by decide) (by decide)).1 _ rfl,
   (c4_put_get_exact rempty "t1" "chk-1" (JVal.jobj [("id", JVal.jstr "chk-1")])
      (JVal.jobj [("step", JVal.jint 1)]) (by decide) (by decide) (by decide)).2
     "chk-404" rfl⟩

/-- Counterexample for C5: the record a put writes keeps the parent id
under the field named parent_ts (as the repository test test_aput asserts),
and holds no field named parentCheckpointId, contradicting the claimed
field name at this concrete put. -/
theorem c5_counterexample :
    aput rempty "t1" "chk-1" none JVal.jnull JVal.jnull
      = .ok ⟨[(("checkpoint:t1:chk-1" : String),
          RVal.hash [("checkpoint", "null"), ("metadata", "null"), ("parent_ts", "")])]⟩
    ∧ lookupField [("checkpoint", "null"), ("metadata", "null"), ("parent_ts", "")]
        "parentCheckpointId" = none :=
  ⟨rfl, rfl⟩

/-- C5 amended: every put with a non-empty thread id writes exactly one
hash record at key checkpoint:threadId:checkpointId whose fields are the
encoded checkpoint, the encoded metadata, and the parent checkpoint id
under the field name parent_ts (the empty string when no parent is
supplied); every other key keeps its value. -/
theorem c5_put_single_record (s : RedisState) (t c : String) (parent : Option String)
    (C M : JVal) (ht : t ≠ "") :
    ∃ s2, aput s t c parent C M = .ok s2
      ∧ rget s2 (checkpointKey t c) = some (.hash (specFields C M (parent.getD "")))
      ∧ ∀ k2, k2 ≠ checkpointKey t c → rget s2 k2 = rget s k2 := by
  refine ⟨rset s (checkpointKey t c) (.hash (specFields C M (parent.getD ""))), ?_, ?_, ?_⟩
  · rw [aput, if_neg ht]
  · exact rget_rset_self s (checkpointKey t c) (.hash (specFields C M (parent.getD "")))
  · intro k2 hk2
    exact rget_rset_other s (checkpointKey t c) k2 (.hash (specFields C M (parent.getD ""))) hk2

/-- Witness for the amended C5 at a concrete put over a store already
holding an unrelated history key. -/
theorem c5_put_single_record_witness :
    ∃ s2, aput ⟨[("history:x", RVal.rlist ["m"])]⟩ "t1" "chk-2" (some "chk-1")
        JVal.jnull JVal.jnull = .ok s2
      ∧ rget s2 (checkpointKey "t1" "chk-2")
          = some (.hash (specFields JVal.jnull JVal.jnull "chk-1"))
      ∧ ∀ k2, k2 ≠ checkpointKey "t1" "chk-2"
          → rget s2 k2 = rget ⟨[("history:x", RVal.rlist ["m"])]⟩ k2 :=
  c5_put_single_record ⟨[("history:x", RVal.rlist ["m"])]⟩ "t1" "chk-2" (some "chk-1")
    JVal.jnull JVal.jnull (by decide)

theorem message_round_trip (m : ConversationMessage) :
    (jsonLoads (jsonDumps (messageToJson m))).bind messageOfJson = some m := by
  have hwf : jwf (messageToJson m) = true := rfl
  rw [jsonLoads_jsonDumps _ hwf]
  show messageOfJson (messageToJson m) = some m
  obtain ⟨qt, q, r, ts⟩ := m
  cases qt <;> rfl

/-- C6: appending two messages in order to a conversation with no prior
entries and listing them returns exactly both messages in insertion
order; listing a conversation with no entries returns the empty sequence,
not an error. -/
theorem c6_history_order (s : RedisState) (cid : String) (m1 m2 : ConversationMessage)
    (hcid : cid ≠ "") (hempty : rget s (historyKey cid) = none) :
    get_all_conversation_messages s cid = .ok []
    ∧ ∃ s1 s2, add_conversation_message s cid m1 = .ok s1
        ∧ add_conversation_message s1 cid m2 = .ok s2
        ∧ get_all_conversation_messages s2 cid = .ok [m1, m2] := by
  refine ⟨?_, ?_⟩
  · rw [get_all_conversation_messages, hempty]
  · refine ⟨rset s (historyKey cid) (.rlist [jsonDumps (messageToJson m1)]),
      rset (rset s (historyKey cid) (.rlist [jsonDumps (messageToJson m1)]))
        (historyKey cid) (.rlist [jsonDumps (messageToJson m1), jsonDumps (messageToJson m2)]),
      ?_, ?_, ?_⟩
    · rw [add_conversation_message, if_neg hcid, hempty]
    · rw [add_conversation_message, if_neg hcid, rget_rset_self]
      rfl
    · rw [get_all_conversation_messages, rget_rset_self]
      show decodeMessages [jsonDumps (messageToJson m1), jsonDumps (messageToJson m2)] = _
      rw [decodeMessages, message_round_trip m1, decodeMessages, message_round_trip m2,
        decodeMessages]
      rfl

/-- Witness for C6 at a concrete conversation id and the two messages of
the repository test. -/
theorem c6_history_order_witness :
    get_all_conversation_messages rempty "conv-1" = .ok []
    ∧ ∃ s1 s2, add_conversation_message rempty "conv-1"
          ⟨.initial_questions, "", "list of initial questions", 1000⟩ = .ok s1
        ∧ add_conversation_message s1 "conv-1"
            ⟨.user_query, "What is kubernetes?",
              "it is a kind of container orchestration tool", 1001⟩ = .ok s2
        ∧ get_all_conversation_messages s2 "conv-1"
            = .ok [⟨.initial_questions, "", "list of initial questions", 1000⟩,
                   ⟨.user_query, "What is kubernetes?",
                     "it is a kind of container orchestration tool", 1001⟩] :=
  c6_history_order rempty "conv-1"
    ⟨.initial_questions, "", "list of initial questions", 1000⟩
    ⟨.user_query, "What is kubernetes?", "it is a kind of container orchestration tool", 1001⟩
    (by decide) rfl

/-- C7: appending under the empty conversation id fails with the invalid
argument fault and stores nothing; appending one message under a non-empty
id and listing returns exactly that message. -/
theorem c7_append_validation (s : RedisState) (cid : String) (m : ConversationMessage)
    (hcid : cid ≠ "") (hempty : rget s (historyKey cid) = none) :
    add_conversation_message s "" m = .error .invalidArgument
    ∧ ∃ s1, add_conversation_message s cid m = .ok s1
        ∧ get_all_conversation_messages s1 cid = .ok [m] := by
  refine ⟨?_, ?_⟩
  · rw [add_conversation_message, if_pos rfl]
  · refine ⟨rset s (historyKey cid) (.rlist [jsonDumps (messageToJson m)]), ?_, ?_⟩
    · rw [add_conversation_message, if_neg hcid, hempty]
    · rw [get_all_conversation_messages, rget_rset_self]
      show decodeMessages [jsonDumps (messageToJson m)] = _
      rw [decodeMessages, message_round_trip m, decodeMessages]
      rfl

/-- Witness for C7 at a concrete conversation id and message. -/
theorem c7_append_validation_witness :
    add_conversation_message rempty ""
        ⟨.initial_questions, "", "list of initial questions", 1000⟩
      = .error .invalidArgument
    ∧ ∃ s1, add_conversation_message rempty "conv-2"
          ⟨.initial_questions, "", "list of initial questions", 1000⟩ = .ok s1
        ∧ get_all_conversation_messages s1 "conv-2"
            = .ok [⟨.initial_questions, "", "list of initial questions", 1000⟩] :=
  c7_append_validation rempty "conv-2"
    ⟨.initial_questions, "", "list of initial questions", 1000⟩ (by decide) rfl

/-- C8: the connection manager returns an already-open connection as is,
lends a live connection marked as borrowed when given a pool whose
transport is up, and rejects null and unrecognized values with the
invalid argument fault. -/
theorem c8_acquire_dispatch (c : RedisConn) (pid : Nat) (s : String) :
    get_async_connection (.conn c) = .ok ⟨c, false⟩
    ∧ get_async_connection (.pool pid true) = .ok ⟨⟨pid, true⟩, true⟩
    ∧ (⟨pid, true⟩ : RedisConn).live = true
    ∧ get_async_connection .nullArg = .error .invalidArgument
    ∧ get_async_connection (.otherArg s) = .error .invalidArgument :=
  ⟨rfl, rfl, rfl, rfl, rfl⟩

/-- C10: filter_messages keeps exactly the last ten messages in their
original order (a suffix of the input of length ten at most), and returns
the list unchanged when it has ten or fewer elements. -/
theorem c10_filter_last_ten (α : Type) (l : List α) :
    (filter_messages l).length = min 10 l.length
    ∧ l.take (l.length - 10) ++ filter_messages l = l
    ∧ (l.length ≤ 10 → filter_messages l = l) := by
  refine ⟨?_, ?_, ?_⟩
  · rw [filter_messages, List.length_drop]
    omega
  · rw [filter_messages, List.take_append_drop]
  · intro h
    rw [filter_messages]
    have h0 : l.length - 10 = 0 := by omega
    rw [h0, List.drop_zero]

/-- Witness for C10 at a twelve-element list, where only the last ten
survive. -/
theorem c10_filter_last_ten_witness :
    (filter_messages [0, 1, 2, 3, 4, 5, 6, 7, 8, 9, 10, 11]).length
        = min 10 ([0, 1, 2, 3, 4, 5, 6, 7, 8, 9, 10, 11] : List Nat).length
    ∧ ([0, 1, 2, 3, 4, 5, 6, 7, 8, 9, 10, 11] : List Nat).take
          (([0, 1, 2, 3, 4, 5, 6, 7, 8, 9, 10, 11] : List Nat).length - 10)
        ++ filter_messages [0, 1, 2, 3, 4, 5, 6, 7, 8, 9, 10, 11]
        = [0, 1, 2, 3, 4, 5, 6, 7, 8, 9, 10, 11]
    ∧ (([0, 1, 2, 3, 4, 5, 6, 7, 8, 9, 10, 11] : List Nat).length ≤ 10 →
        filter_messages [0, 1, 2, 3, 4, 5, 6, 7, 8, 9, 10, 11]
          = [0, 1, 2, 3, 4, 5, 6, 7, 8, 9, 10, 11]) :=
  c10_filter_last_ten Nat [0, 1, 2, 3, 4, 5, 6, 7, 8, 9, 10, 11]

/-- C9: fetch_relevant_data_from_k8s_cluster raises exactly when the
message matches none of the three shapes (empty namespace with kind
"cluster" case-insensitively; non-empty namespace with kind "namespace"
case-insensitively; non-empty kind with non-empty api version), and on
each matching shape returns the context built from the corresponding
client queries. -/
theorem c9_fetch_shape_dichotomy (message : K8sMessage) (k8s_client : K8sClient) :
    ((fetch_relevant_data_from_k8s_cluster message k8s_client
        = .error "Invalid message provided.")
      ↔ ¬((message.resource_namespace.getD "" = ""
            ∧ strLower (message.resource_kind.getD "") = "cluster")
        ∨ (message.resource_namespace.getD "" ≠ ""
            ∧ strLower (message.resource_kind.getD "") = "namespace")
        ∨ (message.resource_kind.getD "" ≠ ""
            ∧ message.resource_api_version.getD "" ≠ "")))
    ∧ (message.resource_namespace.getD "" = ""
        → strLower (message.resource_kind.getD "") = "cluster"
        → fetch_relevant_data_from_k8s_cluster message k8s_client
            = .ok (k8s_client.list_not_running_pods (message.resource_namespace.getD "")
                ++ "\n" ++ k8s_client.list_nodes_metrics ++ "\n"
                ++ k8s_client.list_k8s_warning_events (message.resource_namespace.getD "")))
    ∧ (message.resource_namespace.getD "" ≠ ""
        → strLower (message.resource_kind.getD "") = "namespace"
        → fetch_relevant_data_from_k8s_cluster message k8s_client
            = .ok (k8s_client.list_k8s_warning_events (message.resource_namespace.getD "")))
    ∧ (strLower (message.resource_kind.getD "") ≠ "cluster"
        → strLower (message.resource_kind.getD "") ≠ "namespace"
        → message.resource_kind.getD "" ≠ ""
        → message.resource_api_version.getD "" ≠ ""
        → fetch_relevant_data_from_k8s_cluster message k8s_client
            = .ok (k8s_client.describe_resource (message.resource_api_version.getD "")
                  (message.resource_kind.getD "") (message.resource_name.getD "")
                  (message.resource_namespace.getD "") ++ "\n"
                ++ k8s_client.list_k8s_events_for_resource (message.resource_kind.getD "")
                  (message.resource_name.getD "") (message.resource_namespace.getD ""))) := by
  have hunf : fetch_relevant_data_from_k8s_cluster message k8s_client
      = (if is_empty_str (message.resource_namespace.getD "")
            && (strLower (message.resource_kind.getD "") == "cluster") then
          .ok (k8s_client.list_not_running_pods (message.resource_namespace.getD "")
              ++ "\n" ++ k8s_client.list_nodes_metrics ++ "\n"
              ++ k8s_client.list_k8s_warning_events (message.resource_namespace.getD ""))
        else if is_non_empty_str (message.resource_namespace.getD "")
            && (strLower (message.resource_kind.getD "") == "namespace") then
          .ok (k8s_client.list_k8s_warning_events (message.resource_namespace.getD ""))
        else if is_non_empty_str (message.resource_kind.getD "")
            && is_non_empty_str (message.resource_api_version.getD "") then
          .ok (k8s_client.describe_resource (message.resource_api_version.getD "")
                (message.resource_kind.getD "") (message.resource_name.getD "")
                (message.resource_namespace.getD "") ++ "\n"
              ++ k8s_client.list_k8s_events_for_resource (message.resource_kind.getD "")
                (message.resource_name.getD "") (message.resource_namespace.getD ""))
        else .error "Invalid message provided.") := rfl
  rw [hunf]
  split_ifs with h1 h2 h3
  · simp only [is_empty_str, Bool.and_eq_true, decide_eq_true_eq, beq_iff_eq] at h1
    refine ⟨⟨fun h => (nomatch h), fun hn => absurd (Or.inl h1) hn⟩,
      fun _ _ => rfl, fun hne _ => absurd h1.1 hne, fun hcl _ _ _ => absurd h1.2 hcl⟩
  · simp only [is_empty_str, Bool.and_eq_true, decide_eq_true_eq, beq_iff_eq] at h1
    simp only [is_non_empty_str, Bool.and_eq_true, Bool.not_eq_true', beq_iff_eq,
      decide_eq_false_iff_not] at h2
    refine ⟨⟨fun h => (nomatch h), fun hn => absurd (Or.inr (Or.inl h2)) hn⟩,
      fun he hc => absurd ⟨he, hc⟩ h1, fun _ _ => rfl, fun _ hns _ _ => absurd h2.2 hns⟩
  · simp only [is_empty_str, Bool.and_eq_true, decide_eq_true_eq, beq_iff_eq] at h1
    simp only [is_non_empty_str, Bool.and_eq_true, Bool.not_eq_true', beq_iff_eq,
      decide_eq_false_iff_not] at h2
    simp only [is_non_empty_str, Bool.and_eq_true, Bool.not_eq_true',
      decide_eq_false_iff_not] at h3
    refine ⟨⟨fun h => (nomatch h), fun hn => absurd (Or.inr (Or.inr h3)) hn⟩,
      fun he hc => absurd ⟨he, hc⟩ h1, fun hne hns => absurd ⟨hne, hns⟩ h2,
      fun _ _ _ _ => rfl⟩
  · simp only [is_empty_str, Bool.and_eq_true, decide_eq_true_eq, beq_iff_eq] at h1
    simp only [is_non_empty_str, Bool.and_eq_true, Bool.not_eq_true', beq_iff_eq,
      decide_eq_false_iff_not] at h2
    simp only [is_non_empty_str, Bool.and_eq_true, Bool.not_eq_true',
      decide_eq_false_iff_not] at h3
    refine ⟨⟨fun _ => ?_, fun _ => rfl⟩,
      fun he hc => absurd ⟨he, hc⟩ h1, fun hne hns => absurd ⟨hne, hns⟩ h2,
      fun _ _ hk ha => absurd ⟨hk, ha⟩ h3⟩
    rintro (hs1 | hs2 | hs3)
    · exact absurd hs1 h1
    · exact absurd hs2 h2
    · exact absurd hs3 h3

/-- Witness for C9: a cluster-shaped message returns the three-part
context, and a message with every field absent raises. -/
theorem c9_fetch_shape_dichotomy_witness :
    fetch_relevant_data_from_k8s_cluster ⟨some "", some "Cluster", none, none⟩
        ⟨fun _ => "P", "M", fun _ => "E", fun _ _ _ _ => "D", fun _ _ _ => "V"⟩
      = .ok ("P" ++ "\n" ++ "M" ++ "\n" ++ "E")
    ∧ fetch_relevant_data_from_k8s_cluster ⟨none, none, none, none⟩
        ⟨fun _ => "P", "M", fun _ => "E", fun _ _ _ _ => "D", fun _ _ _ => "V"⟩
      = .error "Invalid message provided." := by
  constructor
  · exact (c9_fetch_shape_dichotomy ⟨some "", some "Cluster", none, none⟩
      ⟨fun _ => "P", "M", fun _ => "E", fun _ _ _ _ => "D", fun _ _ _ => "V"⟩).2.1 rfl rfl
  · exact (c9_fetch_shape_dichotomy ⟨none, none, none, none⟩
      ⟨fun _ => "P", "M", fun _ => "E", fun _ _ _ _ => "D", fun _ _ _ => "V"⟩).1.mpr
      (by decide)

theorem string_data_inj {a b : String} (h : a.data = b.data) : a = b :=
  congrArg String.mk h

theorem ckKey_data (t id : String) :
    (checkpointKey t id).data = ckPre t ++ id.data := by
  rw [checkpointKey, ckPre, String.data_append]

theorem ckKey_inj (t a b : String) (h : checkpointKey t a = checkpointKey t b) : a = b := by
  have hd := congrArg String.data h
  rw [ckKey_data, ckKey_data] at hd
  exact string_data_inj (List.append_cancel_left hd)

theorem lsw_refl_append : ∀ p q : List Char, listStartsWith p (p ++ q) = true := by
  intro p
  induction p with
  | nil => intro q; rfl
  | cons c rest ih => intro q; simp [listStartsWith, ih]

theorem threadEntries_cons_ck (t id : String) (v : RVal) (rest : List (String × RVal)) :
    threadEntries ⟨(checkpointKey t id, v) :: rest⟩ t
      = (id, v) :: threadEntries ⟨rest⟩ t := by
  simp only [threadEntries, List.filterMap_cons]
  have hcond : listStartsWith (ckPre t) (checkpointKey t id).data = true := by
    rw [ckKey_data]
    exact lsw_refl_append _ _
  have hdrop : (checkpointKey t id).data.drop (ckPre t).length = id.data := by
    rw [ckKey_data]
    exact List.drop_left _ _
  rw [if_pos hcond, hdrop]

theorem threadEntries_chain (t : String) : ∀ (items : List (String × JVal × JVal))
    (prev : Option String),
    threadEntries ⟨chainRecords t prev items⟩ t = chainEntries t prev items := by
  intro items
  induction items with
  | nil => intro prev; rfl
  | cons i rest ih =>
    intro prev
    show threadEntries ⟨(checkpointKey t i.1,
        RVal.hash (specFields i.2.1 i.2.2 (prev.getD ""))) :: chainRecords t (some i.1) rest⟩ t
      = _
    rw [threadEntries_cons_ck, ih]
    rfl

theorem chainPut_fresh (t : String) (ht : t ≠ "") : ∀ (items : List (String × JVal × JVal))
    (s : RedisState) (prev : Option String),
    (∀ i ∈ items, s.data.any (fun p => p.1 = checkpointKey t i.1) = false) →
    ((items.map (fun i => i.1)).Nodup) →
    chainPut s t prev items = .ok ⟨s.data ++ chainRecords t prev items⟩ := by
  intro items
  induction items with
  | nil =>
    intro s prev _ _
    simp [chainPut, chainRecords]
  | cons i rest ih =>
    intro s prev hfresh hnd
    rw [List.map_cons] at hnd
    show (match aput s t i.1 prev i.2.1 i.2.2 with
      | .ok s2 => chainPut s2 t (some i.1) rest
      | .error e => .error e) = _
    rw [aput, if_neg ht, rset_fresh s _ _ (hfresh i (List.mem_cons_self i rest))]
    show chainPut ⟨s.data ++ [(checkpointKey t i.1,
        RVal.hash (specFields i.2.1 i.2.2 (prev.getD "")))]⟩ t (some i.1) rest = _
    have hfr : ∀ j ∈ rest,
        (s.data ++ [(checkpointKey t i.1,
            RVal.hash (specFields i.2.1 i.2.2 (prev.getD "")))]).any
          (fun p => p.1 = checkpointKey t j.1) = false := by
      intro j hj
      rw [List.any_append, hfresh j (List.mem_cons_of_mem i hj)]
      simp only [List.any_cons, List.any_nil, Bool.false_or, Bool.or_false]
      exact decide_eq_false (fun heq => (List.nodup_cons.mp hnd).1
        (ckKey_inj t i.1 j.1 heq ▸ List.mem_map_of_mem (fun i => i.1) hj))
    rw [ih _ (some i.1) hfr (List.nodup_cons.mp hnd).2]
    simp only [List.append_assoc]
    rfl

theorem chainEntries_ids (t : String) : ∀ (items : List (String × JVal × JVal))
    (prev : Option String),
    (chainEntries t prev items).map (fun e => e.1) = items.map (fun i => i.1) := by
  intro items
  induction items with
  | nil => intro prev; rfl
  | cons i rest ih =>
    intro prev
    show (i.1, RVal.hash (specFields i.2.1 i.2.2 (prev.getD ""))).1
        :: (chainEntries t (some i.1) rest).map (fun e => e.1) = _
    rw [ih (some i.1)]
    rfl

theorem entryParent_specFields (c m : JVal) (p : String) :
    entryParent (.hash (specFields c m p)) = if p = "" then none else some p := rfl

theorem chainEntries_parents (t : String) : ∀ (items : List (String × JVal × JVal))
    (prev : Option String),
    (∀ x ∈ items.map (fun i => i.1), x ≠ "") →
    (chainEntries t prev items).filterMap (fun e => entryParent e.2)
      = (prevPart prev ++ items.map (fun i => i.1)).dropLast := by
  intro items
  induction items with
  | nil =>
    intro prev _
    cases prev with
    | none => rfl
    | some p =>
      by_cases hp : p = ""
      · simp [chainEntries, prevPart, hp]
      · simp [chainEntries, prevPart, hp]
  | cons i rest ih =>
    intro prev hne
    have hne1 : i.1 ≠ "" := hne i.1 (by simp)
    have hner : ∀ x ∈ rest.map (fun i => i.1), x ≠ "" := fun x hx => hne x (by simp [hx])
    have hp1 : prevPart (some i.1) = [i.1] := by simp [prevPart, hne1]
    cases prev with
    | none =>
      have hcons : chainEntries t none (i :: rest)
          = (i.1, RVal.hash (specFields i.2.1 i.2.2 "")) :: chainEntries t (some i.1) rest :=
        rfl
      rw [hcons]
      simp only [List.filterMap_cons]
      rw [show entryParent (RVal.hash (specFields i.2.1 i.2.2 "")) = none from rfl]
      show (chainEntries t (some i.1) rest).filterMap (fun e => entryParent e.2)
          = (prevPart none ++ List.map (fun i => i.1) (i :: rest)).dropLast
      rw [ih (some i.1) hner, hp1]
      simp [prevPart]
    | some p =>
      have hcons : chainEntries t (some p) (i :: rest)
          = (i.1, RVal.hash (specFields i.2.1 i.2.2 p)) :: chainEntries t (some i.1) rest :=
        rfl
      rw [hcons]
      simp only [List.filterMap_cons]
      rw [entryParent_specFields]
      by_cases hp : p = ""
      · rw [if_pos hp]
        show (chainEntries t (some i.1) rest).filterMap (fun e => entryParent e.2)
            = (prevPart (some p) ++ List.map (fun i => i.1) (i :: rest)).dropLast
        rw [ih (some i.1) hner, hp1]
        simp [prevPart, hp]
      · rw [if_neg hp]
        show p :: (chainEntries t (some i.1) rest).filterMap (fun e => entryParent e.2)
            = (prevPart (some p) ++ List.map (fun i => i.1) (i :: rest)).dropLast
        rw [ih (some i.1) hner, hp1]
        have hpp : prevPart (some p) = [p] := by simp [prevPart, hp]
        rw [hpp]
        simp [List.dropLast_cons₂]

theorem filter_last_candidate (init : List String) (last : String)
    (hnd : (init ++ [last]).Nodup) :
    (init ++ [last]).filter (fun c => !(strMem c ((init ++ [last]).dropLast))) = [last] := by
  have hdl : (init ++ [last]).dropLast = init := List.dropLast_concat
  rw [hdl, List.filter_append]
  have h1 : init.filter (fun c => !(strMem c init)) = [] := by
    rw [List.filter_eq_nil_iff]
    intro a ha
    simp only [Bool.not_eq_true', Bool.not_eq_false]
    exact (contains_iff_strMem a init).mpr ha
  have hnl : last ∉ init := fun hmem =>
    ((List.nodup_append.mp hnd).2.2) hmem (List.mem_singleton_self last)
  have hsm : strMem last init = false := by
    cases hv : strMem last init
    · rfl
    · exact absurd ((contains_iff_strMem last init).mp hv) hnl
  have h2 : [last].filter (fun c => !(strMem c init)) = [last] := by
    rw [List.filter_cons, hsm]
    rfl
  rw [h1, h2]
  rfl

theorem headCandidates_chain (t : String) (items : List (String × JVal × JVal))
    (hne : ∀ x ∈ items.map (fun i => i.1), x ≠ "") :
    headCandidates ⟨chainRecords t none items⟩ t
      = (items.map (fun i => i.1)).filter
          (fun c => !(strMem c ((items.map (fun i => i.1)).dropLast))) := by
  rw [headCandidates, parentRefs, threadEntries_chain t items none,
    chainEntries_ids t items none, chainEntries_parents t items none hne]
  rw [show prevPart none = ([] : List String) from rfl, List.nil_append]

theorem chainRecords_append (t : String) : ∀ (l1 l2 : List (String × JVal × JVal))
    (prev : Option String),
    chainRecords t prev (l1 ++ l2)
      = chainRecords t prev l1 ++ chainRecords t (chainPrev prev l1) l2 := by
  intro l1
  induction l1 with
  | nil => intro l2 prev; rfl
  | cons i rest ih =>
    intro l2 prev
    rw [List.cons_append]
    show (checkpointKey t i.1, RVal.hash (specFields i.2.1 i.2.2 (prev.getD "")))
        :: chainRecords t (some i.1) (rest ++ l2) = _
    rw [ih l2 (some i.1)]
    rfl

theorem find?_chain_none (t : String) : ∀ (items : List (String × JVal × JVal))
    (prev : Option String) (id : String), ¬(id ∈ items.map (fun i => i.1)) →
    (chainRecords t prev items).find? (fun p => p.1 = checkpointKey t id) = none := by
  intro items
  induction items with
  | nil => intro prev id _; rfl
  | cons i rest ih =>
    intro prev id hid
    rw [List.map_cons, List.mem_cons] at hid
    push_neg at hid
    show ((checkpointKey t i.1, RVal.hash (specFields i.2.1 i.2.2 (prev.getD "")))
        :: chainRecords t (some i.1) rest).find? (fun p => p.1 = checkpointKey t id) = none
    rw [List.find?_cons_of_neg _ (by
      simp only [decide_eq_true_eq]
      exact fun heq => hid.1.symm (ckKey_inj t i.1 id heq))]
    exact ih (some i.1) id hid.2

/-- C1: for a thread whose records form a linear parent-linked chain (each
put names the previously written checkpoint as parent, the first the root
sentinel), get with no checkpoint id returns the record of the unique
checkpoint id no record references as a parent - the last one written -
with a parent reference to its predecessor. -/
theorem c1_head_resolution (t : String) (ht : t ≠ "")
    (front : List (String × JVal × JVal)) (pitem litem : String × JVal × JVal)
    (hnd : ((front ++ [pitem, litem]).map (fun i => i.1)).Nodup)
    (hne : ∀ x ∈ (front ++ [pitem, litem]).map (fun i => i.1), x ≠ "")
    (hwc : jwf litem.2.1 = true) (hwm : jwf litem.2.2 = true) :
    ∃ s, chainPut rempty t none (front ++ [pitem, litem]) = .ok s
      ∧ aget_tuple s t none
          = .ok (some ⟨t, litem.1, litem.2.1, litem.2.2, some (t, pitem.1)⟩) := by
  have hids : (front ++ [pitem, litem]).map (fun i => i.1)
      = (front.map (fun i => i.1) ++ [pitem.1]) ++ [litem.1] := by
    simp [List.map_append]
  have hnd2 := hids ▸ hnd
  have hcand : headCandidates ⟨chainRecords t none (front ++ [pitem, litem])⟩ t
      = [litem.1] := by
    rw [headCandidates_chain t _ hne, hids]
    exact filter_last_candidate _ _ hnd2
  have hres : resolveHead ⟨chainRecords t none (front ++ [pitem, litem])⟩ t
      = .ok (some litem.1) := by
    show (match headCandidates ⟨chainRecords t none (front ++ [pitem, litem])⟩ t with
      | [] => if (threadEntries ⟨chainRecords t none (front ++ [pitem, litem])⟩ t).isEmpty
          then Except.ok none else Except.error StoreErr.corruptChain
      | [c] => Except.ok (some c)
      | c :: c2 :: rest => Except.ok (some (maxStrList (c :: c2 :: rest))))
      = Except.ok (some litem.1)
    rw [hcand]
  have hsplit : chainRecords t none (front ++ [pitem, litem])
      = chainRecords t none front
        ++ [(checkpointKey t pitem.1,
             RVal.hash (specFields pitem.2.1 pitem.2.2 ((chainPrev none front).getD ""))),
            (checkpointKey t litem.1,
             RVal.hash (specFields litem.2.1 litem.2.2 pitem.1))] := by
    rw [chainRecords_append t front [pitem, litem] none]
    rfl
  have hlm : ¬(litem.1 ∈ front.map (fun i => i.1)) := fun hmem =>
    (List.nodup_append.mp hnd2).2.2 (List.mem_append_left _ hmem)
      (List.mem_singleton_self _)
  have hpl : ¬(checkpointKey t pitem.1 = checkpointKey t litem.1) := by
    intro heq
    have hple := ckKey_inj t pitem.1 litem.1 heq
    exact (List.nodup_append.mp hnd2).2.2
      (List.mem_append_right _ (List.mem_singleton_self pitem.1))
      (by rw [hple]; exact List.mem_singleton_self _)
  have hrget : rget ⟨chainRecords t none (front ++ [pitem, litem])⟩ (checkpointKey t litem.1)
      = some (RVal.hash (specFields litem.2.1 litem.2.2 pitem.1)) := by
    show ((chainRecords t none (front ++ [pitem, litem])).find?
        (fun p => p.1 = checkpointKey t litem.1)).map (fun p => p.2) = _
    rw [hsplit, List.find?_append, find?_chain_none t front none litem.1 hlm,
      Option.none_or, List.find?_cons_of_neg _ (by simpa using hpl),
      List.find?_cons_of_pos _ (by simp)]
    rfl
  have hnep : pitem.1 ≠ "" := hne pitem.1 (by simp)
  refine ⟨⟨chainRecords t none (front ++ [pitem, litem])⟩, ?_, ?_⟩
  · exact chainPut_fresh t ht _ rempty none (fun i _ => rfl) hnd
  · rw [aget_tuple]
    show (match resolveHead ⟨chainRecords t none (front ++ [pitem, litem])⟩ t with
      | .error e => Except.error e
      | .ok none => Except.ok none
      | .ok (some cid) =>
        match rget ⟨chainRecords t none (front ++ [pitem, litem])⟩ (checkpointKey t cid) with
        | none => Except.ok none
        | some (.hash fields) => (recordTuple t cid fields).map some
        | some (.rlist _) => Except.error StoreErr.wrongType) = _
    rw [hres]
    show (match rget ⟨chainRecords t none (front ++ [pitem, litem])⟩
        (checkpointKey t litem.1) with
      | none => Except.ok none
      | some (.hash fields) => (recordTuple t litem.1 fields).map some
      | some (.rlist _) => Except.error StoreErr.wrongType) = _
    rw [hrget]
    show (recordTuple t litem.1 (specFields litem.2.1 litem.2.2 pitem.1)).map some = _
    rw [recordTuple_specFields t litem.1 litem.2.1 litem.2.2 pitem.1 hwc hwm, if_neg hnep]
    rfl

/-- Witness for C1: the spec scenario itself, putting chk-1 then chk-2 on
thread t1 and resolving the head. -/
theorem c1_head_resolution_witness :
    ∃ s, chainPut rempty "t1" none
        ([] ++ [("chk-1", JVal.jobj [("id", JVal.jstr "chk-1")], JVal.jint 1),
                ("chk-2", JVal.jobj [("id", JVal.jstr "chk-2")], JVal.jint 2)]) = .ok s
      ∧ aget_tuple s "t1" none
          = .ok (some ⟨"t1", "chk-2", JVal.jobj [("id", JVal.jstr "chk-2")], JVal.jint 2,
              some ("t1", "chk-1")⟩) :=
  c1_head_resolution "t1" (by decide) []
    ("chk-1", JVal.jobj [("id", JVal.jstr "chk-1")], JVal.jint 1)
    ("chk-2", JVal.jobj [("id", JVal.jstr "chk-2")], JVal.jint 2)
    (by decide) (by decide) (by decide) (by decide)

theorem recordTuple_no_chain (t c : String) (f : List (String × String)) :
    recordTuple t c f ≠ .error .corruptChain := by
  unfold recordTuple
  split
  · split
    · intro h
      exact nomatch h
    · intro h
      simp at h
  · intro h
    simp at h

/-- C2: with more than one head candidate the store does not raise the
CorruptChainError the spec proposes; head resolution instead selects the
greatest candidate checkpoint id, as the repository test demands, and get
returns normally. -/
theorem c2_head_ambiguity (s : RedisState) (t c1 c2 : String) (rest : List String)
    (hc : headCandidates s t = c1 :: c2 :: rest) :
    resolveHead s t = .ok (some (maxStrList (c1 :: c2 :: rest)))
    ∧ aget_tuple s t none ≠ .error .corruptChain := by
  have hres : resolveHead s t = .ok (some (maxStrList (c1 :: c2 :: rest))) := by
    show (match headCandidates s t with
      | [] => if (threadEntries s t).isEmpty
          then Except.ok none else Except.error StoreErr.corruptChain
      | [c] => Except.ok (some c)
      | c :: c2 :: rest => Except.ok (some (maxStrList (c :: c2 :: rest)))) = _
    rw [hc]
  refine ⟨hres, ?_⟩
  rw [aget_tuple]
  show (match resolveHead s t with
    | .error e => Except.error e
    | .ok none => Except.ok none
    | .ok (some cid) =>
      match rget s (checkpointKey t cid) with
      | none => Except.ok none
      | some (.hash fields) => (recordTuple t cid fields).map some
      | some (.rlist _) => Except.error StoreErr.wrongType) ≠ .error .corruptChain
  rw [hres]
  show (match rget s (checkpointKey t (maxStrList (c1 :: c2 :: rest))) with
    | none => Except.ok none
    | some (.hash fields) => (recordTuple t (maxStrList (c1 :: c2 :: rest)) fields).map some
    | some (.rlist _) => Except.error StoreErr.wrongType) ≠ .error .corruptChain
  cases hr : rget s (checkpointKey t (maxStrList (c1 :: c2 :: rest))) with
  | none =>
    intro h
    exact nomatch h
  | some v =>
    cases v with
    | hash fields =>
      show (recordTuple t (maxStrList (c1 :: c2 :: rest)) fields).map some
          ≠ .error .corruptChain
      intro h
      cases hrt : recordTuple t (maxStrList (c1 :: c2 :: rest)) fields with
      | ok tup =>
        rw [hrt] at h
        exact nomatch h
      | error e =>
        rw [hrt] at h
        have h2 : (Except.error e : Except StoreErr (Option CheckpointTuple))
            = .error .corruptChain := h
        injection h2 with he
        exact recordTuple_no_chain t (maxStrList (c1 :: c2 :: rest)) fields
          (by rw [hrt, he])
    | rlist items =>
      show (Except.error StoreErr.wrongType : Except StoreErr (Option CheckpointTuple))
          ≠ .error .corruptChain
      intro h
      simp at h

/-- Witness for C2's amended behaviour at the store of the repository
test: three records of thread-1 all naming chk-2 as parent leave the two
candidates chk-1 and chk-3, and resolution returns the greater. -/
theorem c2_head_ambiguity_witness :
    resolveHead
        ⟨[("checkpoint:thread-1:chk-1",
            RVal.hash [("checkpoint", "\x7b\"id\": \"chk-1\"\x7d"), ("metadata", "3"),
              ("parent_ts", "chk-2")]),
          ("checkpoint:thread-1:chk-2",
            RVal.hash [("checkpoint", "\x7b\"id\": \"chk-2\"\x7d"), ("metadata", "3"),
              ("parent_ts", "chk-2")]),
          ("checkpoint:thread-1:chk-3",
            RVal.hash [("checkpoint", "\x7b\"id\": \"chk-3\"\x7d"), ("metadata", "3"),
              ("parent_ts", "chk-2")])]⟩ "thread-1"
      = .ok (some (maxStrList ["chk-1", "chk-3"]))
    ∧ aget_tuple
        ⟨[("checkpoint:thread-1:chk-1",
            RVal.hash [("checkpoint", "\x7b\"id\": \"chk-1\"\x7d"), ("metadata", "3"),
              ("parent_ts", "chk-2")]),
          ("checkpoint:thread-1:chk-2",
            RVal.hash [("checkpoint", "\x7b\"id\": \"chk-2\"\x7d"), ("metadata", "3"),
              ("parent_ts", "chk-2")]),
          ("checkpoint:thread-1:chk-3",
            RVal.hash [("checkpoint", "\x7b\"id\": \"chk-3\"\x7d"), ("metadata", "3"),
              ("parent_ts", "chk-2")])]⟩ "thread-1" none ≠ .error .corruptChain :=
  c2_head_ambiguity
    ⟨[("checkpoint:thread-1:chk-1",
        RVal.hash [("checkpoint", "\x7b\"id\": \"chk-1\"\x7d"), ("metadata", "3"),
          ("parent_ts", "chk-2")]),
      ("checkpoint:thread-1:chk-2",
        RVal.hash [("checkpoint", "\x7b\"id\": \"chk-2\"\x7d"), ("metadata", "3"),
          ("parent_ts", "chk-2")]),
      ("checkpoint:thread-1:chk-3",
        RVal.hash [("checkpoint", "\x7b\"id\": \"chk-3\"\x7d"), ("metadata", "3"),
          ("parent_ts", "chk-2")])]⟩ "thread-1" "chk-1" "chk-3" [] (by decide)

/-- Counterexample to C2 as stated: replaying the third case of
test_aget (three puts on thread-1, every parent chk-2) leaves two head
candidates, yet get returns the chk-3 record normally instead of raising
CorruptChainError. -/
theorem c2_counterexample :
    ∃ s3,
      (aput rempty "thread-1" "chk-1" (some "chk-2")
          (JVal.jobj [("id", JVal.jstr "chk-1")]) (JVal.jint 3)).bind
        (fun s1 => (aput s1 "thread-1" "chk-2" (some "chk-2")
            (JVal.jobj [("id", JVal.jstr "chk-2")]) (JVal.jint 3)).bind
          (fun s2 => aput s2 "thread-1" "chk-3" (some "chk-2")
              (JVal.jobj [("id", JVal.jstr "chk-3")]) (JVal.jint 3))) = .ok s3
      ∧ 2 ≤ (headCandidates s3 "thread-1").length
      ∧ aget_tuple s3 "thread-1" none
          = .ok (some ⟨"thread-1", "chk-3", JVal.jobj [("id", JVal.jstr "chk-3")],
              JVal.jint 3, some ("thread-1", "chk-2")⟩) := by
  refine ⟨_, rfl, by decide, by rfl⟩
